import Mathlib

set_option autoImplicit false
set_option maxRecDepth 8000

/-!
Shallow embedding of the chapter-detection / text-chunking core of the
doc-to-audiobook repository (src/core/chapter_manager.py, src/core/tts/enhanced.py,
src/core/tts/engine.py, src/core/tts/cache.py, src/core/doc2audiobook.py).

Modelling conventions:
* Python strings are `List Char`; Python ints are `Nat` (every quantity in the
  modelled code paths is a size, count or index, hence non-negative).
* Python float ratio comparisons against the policy constants 0.90 / 0.95 are
  modelled exactly over the integers by cross-multiplication
  (total / orig < 0.9  ↦  10 * total < 9 * orig).
* Python exceptions are `Except PyErr`; a `try/except` block is a `match` on the
  body with the handler in the `.error` arm.  Statements that can raise in the
  modelled paths (`range(_, _, 0)`, integer division by zero, exceeding the
  interpreter recursion limit) produce `.error`.
-/

inductive PyErr where
  | valueError
  | zeroDivisionError
  | recursionError
  deriving Repr, DecidableEq

def toL (s : String) : List Char := s.data

/-- Python whitespace (the ASCII whitespace characters: space, tab, newline,
carriage return, vertical tab, form feed); models `str.strip` / `str.split()` /
regex `\s` over the ASCII alphabet of the handled texts. -/
def pyWs (c : Char) : Bool :=
  c = ' ' || c = '\t' || c = '\n' || c = '\r' || c = '\x0b' || c = '\x0c'

/-- Python `s.strip()`. -/
def pyStrip (l : List Char) : List Char :=
  ((l.dropWhile pyWs).reverse.dropWhile pyWs).reverse

/-- Python slice `s[a:b]` for non-negative bounds (clamping like Python). -/
def pySlice (l : List Char) (a b : Nat) : List Char :=
  (l.drop a).take (b - a)

def pyFindGo (sub : List Char) : List Char → Nat → Nat → Option Nat
  | rem, i, limit =>
    if i > limit then none
    else if sub.isPrefixOf rem then some i
    else
      match rem with
      | [] => none
      | _ :: t => pyFindGo sub t (i + 1) limit

/-- Python `text.find(sub, s, e)` (for nonempty `sub`): the smallest `i ≥ s`
such that `sub` occurs at `i` and `i + sub.length ≤ min e text.length`;
`none` models the return value `-1`. -/
def pyFind (text sub : List Char) (s e : Nat) : Option Nat :=
  let hi := min e text.length
  if s + sub.length > hi then none
  else pyFindGo sub (text.drop s) s (hi - sub.length)

def pyCountGo (sub : List Char) : Nat → List Char → Nat
  | 0, _ => 0
  | fuel + 1, rem =>
    match rem with
    | [] => 0
    | c :: t =>
      if sub.isPrefixOf (c :: t) then 1 + pyCountGo sub fuel ((c :: t).drop sub.length)
      else pyCountGo sub fuel t

/-- Python `text.count(sub)` for nonempty `sub`: number of non-overlapping
occurrences, scanning left to right. -/
def pyCount (text sub : List Char) : Nat := pyCountGo sub text.length text

def pySplitWsGo : Nat → List Char → List (List Char)
  | 0, _ => []
  | fuel + 1, l =>
    let l1 := l.dropWhile pyWs
    match l1 with
    | [] => []
    | _ =>
      let w := l1.takeWhile (fun c => !pyWs c)
      w :: pySplitWsGo fuel (l1.drop w.length)

/-- Python `s.split()` (no argument): split on whitespace runs, no empty pieces. -/
def pySplitWs (l : List Char) : List (List Char) := pySplitWsGo (l.length + 1) l

def pySplitOnGo (sep : List Char) : Nat → List Char → List Char → List (List Char)
  | 0, cur, _ => [cur.reverse]
  | fuel + 1, cur, rem =>
    match rem with
    | [] => [cur.reverse]
    | c :: t =>
      if sep.isPrefixOf (c :: t) then
        cur.reverse :: pySplitOnGo sep fuel [] ((c :: t).drop sep.length)
      else pySplitOnGo sep fuel (c :: cur) t

/-- Python `s.split(sep)` for nonempty `sep`: pieces between occurrences,
empty pieces kept. -/
def pySplitOn (text sep : List Char) : List (List Char) :=
  pySplitOnGo sep (text.length + 1) [] text

/-- Index of the last newline in `l`, if any. -/
def lastNlIdx (l : List Char) : Option Nat :=
  match l.reverse.findIdx? (fun c => c = '\n') with
  | some k => some (l.length - 1 - k)
  | none => none

def reSplitParasGo : Nat → List Char → List Char → List (List Char)
  | 0, cur, _ => [cur.reverse]
  | fuel + 1, cur, rem =>
    match rem with
    | [] => [cur.reverse]
    | c :: t =>
      if c = '\n' then
        let run := t.takeWhile pyWs
        match lastNlIdx run with
        | some j => cur.reverse :: reSplitParasGo fuel [] (t.drop (j + 1))
        | none => reSplitParasGo fuel (c :: cur) t
      else reSplitParasGo fuel (c :: cur) t

/-- Python `re.split(r'\n\s*\n', text)`: a separator is a newline followed by
greedily as much whitespace as possible ending in a final newline. -/
def reSplitParas (text : List Char) : List (List Char) :=
  reSplitParasGo (text.length + 1) [] text

def splitAfterClsGo (cls : Char → Bool) :
    Nat → Option Char → List Char → List Char → List (List Char)
  | 0, _, cur, _ => [cur.reverse]
  | fuel + 1, prev, cur, rem =>
    match rem with
    | [] => [cur.reverse]
    | c :: t =>
      if pyWs c && (match prev with | some p => cls p | none => false) then
        cur.reverse :: splitAfterClsGo cls fuel (some ' ') [] (t.dropWhile pyWs)
      else splitAfterClsGo cls fuel (some c) (c :: cur) t

/-- Python `re.split(r'(?<=[X])\s+', text)` where `X` is a character class:
split on maximal whitespace runs immediately preceded by a class character. -/
def splitAfterCls (cls : Char → Bool) (text : List Char) : List (List Char) :=
  splitAfterClsGo cls (text.length + 1) none [] text

def sentEndCls (c : Char) : Bool := c = '.' || c = '!' || c = '?'

def clauseCls (c : Char) : Bool := c = ',' || c = ';' || c = ':'

/-- Python `s.isupper()` over the ASCII alphabet: at least one uppercase letter
and no lowercase letter. -/
def sIsUpper (l : List Char) : Bool := l.any Char.isUpper && !(l.any Char.isLower)

def natToChars (n : Nat) : List Char := (Nat.repr n).data

/-- Sum of the content lengths of a list of (title, content) chapters. -/
def totalLen (cs : List (List Char × List Char)) : Nat :=
  (cs.map (fun c => c.2.length)).sum

/-! ## EnhancedTTS._split_text_to_chunks (src/core/tts/enhanced.py 278-446) -/

/-- Python `for i in range(0, len(s), k): chunks.append(s[i:i+k])` for k ≥ 1:
the ceil(len/k) slices of length k. -/
def hardSplit (s : List Char) (k : Nat) : List (List Char) :=
  (List.range ((s.length + k - 1) / k)).map (fun j => (s.drop (j * k)).take k)

/-- The same loop as executed by Python: `range` raises `ValueError` when the
step `k` is zero. -/
def hardSplitE (s : List Char) (k : Nat) : Except PyErr (List (List Char)) :=
  if k = 0 then .error .valueError else .ok (hardSplit s k)

/-- Word-level loop of `_split_text_to_chunks` (state: chunks, word_chunk). -/
def wordLoop (safe : Nat) :
    List (List Char) → List (List Char) × List Char →
    Except PyErr (List (List Char) × List Char)
  | [], st => .ok st
  | w :: ws, (chunks, wc) =>
    if wc.length + w.length + 1 ≤ safe then
      wordLoop safe ws (chunks, if wc ≠ [] then wc ++ ' ' :: w else w)
    else
      let chunks1 := if wc ≠ [] then chunks ++ [wc] else chunks
      if w.length > safe then
        match hardSplitE w safe with
        | .ok pieces => wordLoop safe ws (chunks1 ++ pieces, wc)
        | .error e => .error e
      else
        wordLoop safe ws (chunks1, w)

/-- Phrase-level loop of `_split_text_to_chunks` (state: chunks, phrase_chunk).
When a phrase is longer than the limit, the inner word loop runs and its final
word_chunk is flushed; as in the source, phrase_chunk is not reset in that
branch. -/
def phraseLoop (safe : Nat) :
    List (List Char) → List (List Char) × List Char →
    Except PyErr (List (List Char) × List Char)
  | [], st => .ok st
  | p :: ps, (chunks, pc) =>
    if pc.length + p.length + 1 ≤ safe then
      phraseLoop safe ps (chunks, if pc ≠ [] then pc ++ ' ' :: p else p)
    else
      let chunks1 := if pc ≠ [] then chunks ++ [pc] else chunks
      if p.length > safe then
        match wordLoop safe (pySplitWs p) (chunks1, []) with
        | .ok (chunks2, wc) =>
          phraseLoop safe ps (if wc ≠ [] then chunks2 ++ [wc] else chunks2, pc)
        | .error e => .error e
      else
        phraseLoop safe ps (chunks1, p)

/-- Sentence-level loop of `_split_text_to_chunks` (state: chunks, current_chunk).
As in the source, current_chunk is not reset in the long-sentence branch. -/
def sentLoop (safe : Nat) :
    List (List Char) → List (List Char) × List Char →
    Except PyErr (List (List Char) × List Char)
  | [], st => .ok st
  | s :: ss, (chunks, cc) =>
    if cc.length + s.length + 1 ≤ safe then
      sentLoop safe ss (chunks, if cc ≠ [] then cc ++ ' ' :: s else s)
    else
      let chunks1 := if cc ≠ [] then chunks ++ [cc] else chunks
      if s.length > safe then
        match phraseLoop safe (splitAfterCls clauseCls s) (chunks1, []) with
        | .ok (chunks2, pc) =>
          sentLoop safe ss (if pc ≠ [] then chunks2 ++ [pc] else chunks2, cc)
        | .error e => .error e
      else
        sentLoop safe ss (chunks1, s)

/-- Paragraph-level loop of `_split_text_to_chunks` (state: chunks, current_chunk). -/
def paraLoop (safe : Nat) :
    List (List Char) → List (List Char) × List Char →
    Except PyErr (List (List Char) × List Char)
  | [], st => .ok st
  | p0 :: ps, (chunks, cc) =>
    let p := pyStrip p0
    if p = [] then paraLoop safe ps (chunks, cc)
    else
      let st1 :=
        if cc ≠ [] ∧ cc.length + p.length + 2 > safe then (chunks ++ [cc], ([] : List Char))
        else (chunks, cc)
      if p.length > safe then
        match sentLoop safe (splitAfterCls sentEndCls p) st1 with
        | .ok st2 => paraLoop safe ps st2
        | .error e => .error e
      else
        paraLoop safe ps (st1.1, if st1.2 ≠ [] then st1.2 ++ '\n' :: '\n' :: p else p)

/-- Final verification pass: force-split every chunk exceeding the limit. -/
def verifyE (safe : Nat) : List (List Char) → Except PyErr (List (List Char))
  | [] => .ok []
  | c :: cs =>
    match verifyE safe cs with
    | .error e => .error e
    | .ok rest =>
      if c.length > safe then
        match hardSplitE c safe with
        | .error e => .error e
        | .ok ps => .ok (ps ++ rest)
      else .ok (c :: rest)

/-- Python `max((len(chunk) for chunk in l), default=0)`. -/
def listMaxLen (l : List (List Char)) : Nat := l.foldr (fun c m => max c.length m) 0

/-- Emergency / except-handler chunking: fixed 3800-character slices. -/
def charChunks3800 (text : List Char) : List (List Char) :=
  (List.range ((text.length + 3799) / 3800)).map (fun j => (text.drop (j * 3800)).take 3800)

/-- Try-block body of `EnhancedTTS._split_text_to_chunks` with
`safe = min(max_chunk_size, 4000)` already computed. -/
def chunkBodyE (text : List Char) (safe : Nat) : Except PyErr (List (List Char)) :=
  if text.length ≤ safe then .ok [text]
  else
    match paraLoop safe (reSplitParas text) ([], []) with
    | .error e => .error e
    | .ok (chunks0, cc) =>
      match verifyE safe (if cc ≠ [] then chunks0 ++ [cc] else chunks0) with
      | .error e => .error e
      | .ok verified =>
        if listMaxLen (verified.filter (fun c => !(pyStrip c).isEmpty)) > 4000 then
          .ok (charChunks3800 text)
        else .ok (verified.filter (fun c => !(pyStrip c).isEmpty))

/-- `EnhancedTTS._split_text_to_chunks` including its `try/except` wrapper:
any internal exception falls back to plain 3800-character chunking. -/
def splitTextToChunksE (text : List Char) (maxChunkSize : Nat) :
    Except PyErr (List (List Char)) :=
  match chunkBodyE text (min maxChunkSize 4000) with
  | .ok r => .ok r
  | .error _ => .ok (charChunks3800 text)

/-- The (total) result of `_split_text_to_chunks`; the `.error` arm is
unreachable because the except handler always returns. -/
def splitTextToChunks (text : List Char) (maxChunkSize : Nat) : List (List Char) :=
  match splitTextToChunksE text maxChunkSize with
  | .ok r => r
  | .error _ => []

/-! ## TTSEngine._split_text (src/core/tts/engine.py 91-145) -/

/-- Paragraph loop of the engine fallback chunking (except handler of
`TTSEngine._split_text`). -/
def engineParaLoop (safe : Nat) :
    List (List Char) → List (List Char) × List Char →
    Except PyErr (List (List Char) × List Char)
  | [], st => .ok st
  | p :: ps, (chunks, cc) =>
    if cc.length + p.length + 2 ≤ safe then
      engineParaLoop safe ps (chunks, if cc ≠ [] then cc ++ '\n' :: '\n' :: p else p)
    else
      let chunks1 := if cc ≠ [] then chunks ++ [cc] else chunks
      if p.length > safe then
        match hardSplitE p safe with
        | .ok pieces => engineParaLoop safe ps (chunks1 ++ pieces.filter (fun c => !c.isEmpty), cc)
        | .error e => .error e
      else
        engineParaLoop safe ps (chunks1, p)

/-- Except-handler body of `TTSEngine._split_text`. -/
def engineFallbackE (text : List Char) (maxChunkSize : Nat) :
    Except PyErr (List (List Char)) :=
  let safe := min maxChunkSize 4000
  match engineParaLoop safe (pySplitOn text (toL "\n\n")) ([], []) with
  | .error e => .error e
  | .ok (chunks0, cc) =>
    let chunks := if cc ≠ [] then chunks0 ++ [cc] else chunks0
    if chunks = [] then
      if text.length > safe then hardSplitE text safe
      else .ok [text]
    else .ok chunks

/-- `TTSEngine._split_text`: clamp to 4000, delegate to the enhanced splitter;
on exception fall back to `engineFallbackE` (whose own exceptions would
propagate to the caller). -/
def engineSplitTextE (text : List Char) (maxChunkSize : Nat) :
    Except PyErr (List (List Char)) :=
  match splitTextToChunksE text (min maxChunkSize 4000) with
  | .ok r => .ok r
  | .error _ => engineFallbackE text maxChunkSize

/-! ## Lemmas: the enhanced chunker never fails for a positive limit, and the
verification pass enforces the size bound -/

theorem hardSplit_bound {s : List Char} {k : Nat} : ∀ c ∈ hardSplit s k, c.length ≤ k := by
  intro c hc
  simp only [hardSplit, List.mem_map] at hc
  obtain ⟨j, -, rfl⟩ := hc
  exact List.length_take_le _ _

theorem hardSplitE_isOk {s : List Char} {k : Nat} (hk : k ≠ 0) :
    ∃ ps, hardSplitE s k = .ok ps ∧ ∀ c ∈ ps, c.length ≤ k :=
  ⟨hardSplit s k, by simp [hardSplitE, hk], hardSplit_bound⟩

theorem wordLoop_isOk {safe : Nat} (hs : safe ≠ 0) :
    ∀ ws st, ∃ r, wordLoop safe ws st = .ok r := by
  intro ws
  induction ws with
  | nil => intro st; exact ⟨st, rfl⟩
  | cons w ws ih =>
    intro ⟨chunks, wc⟩
    simp only [wordLoop]
    split
    · exact ih _
    · split
      · obtain ⟨ps, hps, -⟩ := hardSplitE_isOk (s := w) hs
        rw [hps]
        exact ih _
      · exact ih _

theorem phraseLoop_isOk {safe : Nat} (hs : safe ≠ 0) :
    ∀ ps st, ∃ r, phraseLoop safe ps st = .ok r := by
  intro ps
  induction ps with
  | nil => intro st; exact ⟨st, rfl⟩
  | cons p ps ih =>
    intro ⟨chunks, pc⟩
    simp only [phraseLoop]
    split
    · exact ih _
    · split
      · obtain ⟨⟨chunks2, wc⟩, hw⟩ := wordLoop_isOk hs (pySplitWs p) _
        rw [hw]
        exact ih _
      · exact ih _

theorem sentLoop_isOk {safe : Nat} (hs : safe ≠ 0) :
    ∀ ss st, ∃ r, sentLoop safe ss st = .ok r := by
  intro ss
  induction ss with
  | nil => intro st; exact ⟨st, rfl⟩
  | cons s ss ih =>
    intro ⟨chunks, cc⟩
    simp only [sentLoop]
    split
    · exact ih _
    · split
      · obtain ⟨⟨chunks2, pc⟩, hp⟩ := phraseLoop_isOk hs (splitAfterCls clauseCls s) _
        rw [hp]
        exact ih _
      · exact ih _

theorem paraLoop_isOk {safe : Nat} (hs : safe ≠ 0) :
    ∀ ps st, ∃ r, paraLoop safe ps st = .ok r := by
  intro ps
  induction ps with
  | nil => intro st; exact ⟨st, rfl⟩
  | cons p ps ih =>
    intro ⟨chunks, cc⟩
    simp only [paraLoop]
    split
    · exact ih _
    · split
      · obtain ⟨st2, h2⟩ := sentLoop_isOk hs (splitAfterCls sentEndCls (pyStrip p)) _
        rw [h2]
        exact ih _
      · exact ih _

theorem verifyE_isOk {safe : Nat} (hs : safe ≠ 0) :
    ∀ cs, ∃ r, verifyE safe cs = .ok r ∧ ∀ c ∈ r, c.length ≤ safe := by
  intro cs
  induction cs with
  | nil => exact ⟨[], rfl, by simp⟩
  | cons c cs ih =>
    obtain ⟨r, hr, hb⟩ := ih
    by_cases hc : c.length > safe
    · obtain ⟨ps, hps, hpb⟩ := hardSplitE_isOk (s := c) hs
      refine ⟨ps ++ r, ?_, ?_⟩
      · simp only [verifyE, hr, hc, if_true, hps]
      · intro x hx
        rcases List.mem_append.1 hx with h | h
        · exact hpb x h
        · exact hb x h
    · refine ⟨c :: r, ?_, ?_⟩
      · simp only [verifyE, hr, hc, if_false]
      · intro x hx
        rcases List.mem_cons.1 hx with rfl | h
        · omega
        · exact hb x h

theorem listMaxLen_le {l : List (List Char)} {m : Nat} (h : ∀ c ∈ l, c.length ≤ m) :
    listMaxLen l ≤ m := by
  induction l with
  | nil => simp [listMaxLen]
  | cons c cs ih =>
    simp only [listMaxLen, List.foldr_cons]
    have h1 := h c (by simp)
    have h2 : listMaxLen cs ≤ m := ih (fun x hx => h x (by simp [hx]))
    simp only [listMaxLen] at h2
    omega

theorem chunkBodyE_bound (text : List Char) (safe : Nat) (hs : safe ≠ 0)
    (hs4 : safe ≤ 4000) :
    ∃ r, chunkBodyE text safe = .ok r ∧ ∀ c ∈ r, c.length ≤ safe := by
  unfold chunkBodyE
  by_cases hlen : text.length ≤ safe
  · refine ⟨[text], by simp [hlen], ?_⟩
    intro c hc
    rcases List.mem_singleton.1 hc with rfl
    exact hlen
  · simp only [hlen, if_false]
    obtain ⟨⟨chunks0, cc⟩, hp⟩ := paraLoop_isOk hs (reSplitParas text) ([], [])
    simp only [hp]
    obtain ⟨verified, hv, hvb⟩ :=
      verifyE_isOk hs (if cc ≠ [] then chunks0 ++ [cc] else chunks0)
    simp only [hv]
    have hfb : ∀ c ∈ verified.filter (fun c => !(pyStrip c).isEmpty), c.length ≤ safe :=
      fun c hc => hvb c (List.mem_of_mem_filter hc)
    have hmax : ¬ listMaxLen (verified.filter (fun c => !(pyStrip c).isEmpty)) > 4000 := by
      have := listMaxLen_le hfb
      omega
    simp only [hmax, if_false]
    exact ⟨_, rfl, hfb⟩

/-- `c.length ≤ m` for every chunk `c` in `l`. -/
def chunkLensLe (l : List (List Char)) (m : Nat) : Prop := ∀ c ∈ l, c.length ≤ m

/-! ## Claim C1 -/

/-- C1 as stated fails at max_chunk_size = 0: `range(0, len(word), 0)` raises,
the except handler falls back to 3800-character chunking, and the chunk "abc"
(length 3) exceeds min(0, 4000) = 0. -/
theorem c1_counterexample :
    ¬ chunkLensLe (splitTextToChunks (toL "abc") 0) (min 0 4000) := by
  intro h
  exact absurd (h (toL "abc") (by decide)) (by decide)

/-- C1 (amended): for every text and every max_chunk_size ≥ 1, every chunk
emitted by `_split_text_to_chunks` has length at most min(max_chunk_size, 4000). -/
theorem c1_theorem (text : List Char) (maxChunkSize : Nat) (h : 1 ≤ maxChunkSize) :
    chunkLensLe (splitTextToChunks text maxChunkSize) (min maxChunkSize 4000) := by
  have hs : min maxChunkSize 4000 ≠ 0 := by omega
  have hs4 : min maxChunkSize 4000 ≤ 4000 := by omega
  obtain ⟨r, hr, hb⟩ := chunkBodyE_bound text (min maxChunkSize 4000) hs hs4
  intro c hc
  apply hb
  unfold splitTextToChunks splitTextToChunksE at hc
  rw [hr] at hc
  exact hc

theorem c1_witness :
    chunkLensLe (splitTextToChunks (toL "hello there world") 10) (min 10 4000) :=
  c1_theorem (toL "hello there world") 10 (by decide)

/-! ## Claim C9 -/

/-- C9 (amended): the chunker returns `[text]` unchanged whenever
`len(text) ≤ min(max_chunk_size, 4000)` (the caller limit is clamped to the
4000-character provider ceiling before the small-input test). -/
theorem c9_theorem (text : List Char) (maxChunkSize : Nat)
    (h : text.length ≤ min maxChunkSize 4000) :
    splitTextToChunks text maxChunkSize = [text] := by
  unfold splitTextToChunks splitTextToChunksE chunkBodyE
  simp [h]

/-- C9 scenario: split("word", 4000) = ["word"]. -/
theorem c9_witness : splitTextToChunks (toL "word") 4000 = [toL "word"] :=
  c9_theorem (toL "word") 4000 (by decide)


/-! ## Symbolic evaluation lemmas for single-token texts (used to settle the
claims whose deciding inputs are thousands of characters long) -/

theorem dropWhile_eq_self_of {p : Char → Bool} {l : List Char}
    (h : ∀ c ∈ l, p c = false) : l.dropWhile p = l := by
  cases l with
  | nil => rfl
  | cons c t => simp [List.dropWhile_cons, h c (by simp)]

theorem takeWhile_eq_self_of {p : Char → Bool} {l : List Char}
    (h : ∀ c ∈ l, p c = true) : l.takeWhile p = l := by
  induction l with
  | nil => rfl
  | cons c t ih =>
    have hc := h c (by simp)
    have ht := ih (fun x hx => h x (by simp [hx]))
    simp [List.takeWhile_cons, hc, ht]

theorem pyStrip_of_no_ws {l : List Char} (h : ∀ c ∈ l, pyWs c = false) :
    pyStrip l = l := by
  unfold pyStrip
  rw [dropWhile_eq_self_of h, dropWhile_eq_self_of (fun c hc => h c (List.mem_reverse.1 hc)),
    List.reverse_reverse]

theorem mem_replicate_a_ws {n : Nat} : ∀ c ∈ List.replicate n 'a', pyWs c = false := by
  intro c hc
  rw [List.eq_of_mem_replicate hc]
  rfl

theorem mem_replicate_a_nl {n : Nat} : ∀ c ∈ List.replicate n 'a', c ≠ '\n' := by
  intro c hc
  rw [List.eq_of_mem_replicate hc]
  decide

theorem reSplitParasGo_no_nl :
    ∀ (rem : List Char) (fuel : Nat) (cur : List Char), rem.length < fuel →
      (∀ c ∈ rem, c ≠ '\n') → reSplitParasGo fuel cur rem = [cur.reverse ++ rem] := by
  intro rem
  induction rem with
  | nil =>
    intro fuel cur hf _
    cases fuel with
    | zero => omega
    | succ f => simp [reSplitParasGo]
  | cons c t ih =>
    intro fuel cur hf hn
    cases fuel with
    | zero => omega
    | succ f =>
      have hc : ¬ c = '\n' := hn c (by simp)
      simp only [reSplitParasGo, if_neg hc]
      rw [ih f (c :: cur) (by simp at hf; omega) (fun x hx => hn x (by simp [hx]))]
      simp

theorem reSplitParas_no_nl {l : List Char} (h : ∀ c ∈ l, c ≠ '\n') :
    reSplitParas l = [l] := by
  unfold reSplitParas
  rw [reSplitParasGo_no_nl l (l.length + 1) [] (by omega) h]
  simp

theorem splitAfterClsGo_no_ws (cls : Char → Bool) :
    ∀ (rem : List Char) (fuel : Nat) (prev : Option Char) (cur : List Char),
      rem.length < fuel → (∀ c ∈ rem, pyWs c = false) →
      splitAfterClsGo cls fuel prev cur rem = [cur.reverse ++ rem] := by
  intro rem
  induction rem with
  | nil =>
    intro fuel prev cur hf _
    cases fuel with
    | zero => omega
    | succ f => simp [splitAfterClsGo]
  | cons c t ih =>
    intro fuel prev cur hf hn
    cases fuel with
    | zero => omega
    | succ f =>
      have hc : pyWs c = false := hn c (by simp)
      simp only [splitAfterClsGo, hc, Bool.false_and, Bool.false_eq_true, if_false]
      rw [ih f (some c) (c :: cur) (by simp at hf; omega) (fun x hx => hn x (by simp [hx]))]
      simp

theorem splitAfterCls_no_ws {cls : Char → Bool} {l : List Char}
    (h : ∀ c ∈ l, pyWs c = false) : splitAfterCls cls l = [l] := by
  unfold splitAfterCls
  rw [splitAfterClsGo_no_ws cls l (l.length + 1) none [] (by omega) h]
  simp

theorem pySplitWsGo_nil {fuel : Nat} : pySplitWsGo (fuel + 1) [] = [] := by
  simp [pySplitWsGo]

theorem pySplitWs_no_ws {l : List Char} (hne : l ≠ [])
    (h : ∀ x ∈ l, pyWs x = false) : pySplitWs l = [l] := by
  obtain ⟨c, t, rfl⟩ : ∃ c t, l = c :: t := by
    cases l with
    | nil => exact absurd rfl hne
    | cons c t => exact ⟨c, t, rfl⟩
  have hdw : (c :: t).dropWhile pyWs = c :: t := dropWhile_eq_self_of h
  have htw : (c :: t).takeWhile (fun x => !pyWs x) = c :: t :=
    takeWhile_eq_self_of (fun x hx => by simp [h x hx])
  show pySplitWsGo ((c :: t).length + 1) (c :: t) = [c :: t]
  simp only [pySplitWsGo, hdw, htw]
  rw [List.drop_length]
  simp [List.length_cons, pySplitWsGo]


theorem wordLoop_single {safe : Nat} {w : List Char} (hs : safe ≠ 0)
    (hlong : w.length > safe) :
    wordLoop safe [w] ([], []) = .ok (hardSplit w safe, []) := by
  simp only [wordLoop, List.length_nil]
  rw [if_neg (by omega), if_pos hlong,
    show hardSplitE w safe = .ok (hardSplit w safe) from by simp [hardSplitE, hs]]
  simp only [wordLoop]
  rw [if_neg (fun h : ([] : List Char) ≠ [] => h rfl), List.nil_append]

theorem phraseLoop_single {safe : Nat} {w : List Char} (hs : safe ≠ 0)
    (hlong : w.length > safe) (hne : w ≠ []) (hws : ∀ c ∈ w, pyWs c = false) :
    phraseLoop safe [w] ([], []) = .ok (hardSplit w safe, []) := by
  simp only [phraseLoop, List.length_nil]
  rw [if_neg (by omega), if_pos hlong,
    if_neg (fun h : ([] : List Char) ≠ [] => h rfl),
    pySplitWs_no_ws hne hws, wordLoop_single hs hlong]
  simp only [phraseLoop]
  rw [if_neg (fun h : ([] : List Char) ≠ [] => h rfl)]

theorem sentLoop_single {safe : Nat} {w : List Char} (hs : safe ≠ 0)
    (hlong : w.length > safe) (hne : w ≠ []) (hws : ∀ c ∈ w, pyWs c = false) :
    sentLoop safe [w] ([], []) = .ok (hardSplit w safe, []) := by
  simp only [sentLoop, List.length_nil]
  rw [if_neg (by omega), if_pos hlong,
    if_neg (fun h : ([] : List Char) ≠ [] => h rfl),
    splitAfterCls_no_ws hws, phraseLoop_single hs hlong hne hws]
  simp only [sentLoop]
  rw [if_neg (fun h : ([] : List Char) ≠ [] => h rfl)]

theorem paraLoop_single {safe : Nat} {w : List Char} (hs : safe ≠ 0)
    (hlong : w.length > safe) (hne : w ≠ []) (hws : ∀ c ∈ w, pyWs c = false) :
    paraLoop safe [w] ([], []) = .ok (hardSplit w safe, []) := by
  simp only [paraLoop, pyStrip_of_no_ws hws]
  rw [if_neg hne, if_pos hlong,
    if_neg (fun h : ([] : List Char) ≠ [] ∧ ([] : List Char).length + w.length + 2 > safe => h.1 rfl),
    splitAfterCls_no_ws hws, sentLoop_single hs hlong hne hws]

theorem verifyE_all_le {safe : Nat} : ∀ {l : List (List Char)},
    (∀ c ∈ l, c.length ≤ safe) → verifyE safe l = .ok l := by
  intro l
  induction l with
  | nil => intro _; rfl
  | cons c cs ih =>
    intro h
    simp only [verifyE, ih (fun x hx => h x (by simp [hx]))]
    rw [if_neg (by have := h c (by simp); omega)]

theorem hardSplit_pieces_ne_nil {s : List Char} {k : Nat} (hk : k ≠ 0) :
    ∀ c ∈ hardSplit s k, c ≠ [] := by
  intro c hc
  simp only [hardSplit, List.mem_map, List.mem_range] at hc
  obtain ⟨j, hj, rfl⟩ := hc
  have hjk : j * k < s.length := by
    have h2 : (j + 1) * k ≤ ((s.length + k - 1) / k) * k := Nat.mul_le_mul_right k hj
    have h3 : ((s.length + k - 1) / k) * k ≤ s.length + k - 1 := Nat.div_mul_le_self _ _
    rw [Nat.succ_mul] at h2
    omega
  intro hcontra
  rw [List.take_eq_nil_iff] at hcontra
  rcases hcontra with h | h
  · exact hk h
  · rw [List.drop_eq_nil_iff] at h
    omega

theorem hardSplit_mem_subset {s : List Char} {k : Nat} :
    ∀ c ∈ hardSplit s k, ∀ x ∈ c, x ∈ s := by
  intro c hc x hx
  simp only [hardSplit, List.mem_map] at hc
  obtain ⟨j, -, rfl⟩ := hc
  exact List.drop_subset _ _ (List.take_subset _ _ hx)

theorem filter_strip_eq_self {l : List (List Char)} (h1 : ∀ c ∈ l, c ≠ [])
    (h2 : ∀ c ∈ l, ∀ x ∈ c, pyWs x = false) :
    l.filter (fun c => !(pyStrip c).isEmpty) = l := by
  induction l with
  | nil => rfl
  | cons c cs ih =>
    rw [List.filter_cons]
    have hc : (pyStrip c).isEmpty = false := by
      rw [pyStrip_of_no_ws (h2 c (by simp))]
      cases hcc : c with
      | nil => exact absurd hcc (h1 c (by simp))
      | cons a t => rfl
    rw [hc]
    simp only [Bool.not_false, if_true]
    rw [ih (fun x hx => h1 x (by simp [hx])) (fun x hx => h2 x (by simp [hx]))]

theorem chunkBodyE_single_token {text : List Char} {safe : Nat} (hs : safe ≠ 0)
    (hs4 : safe ≤ 4000) (hws : ∀ c ∈ text, pyWs c = false)
    (hlong : text.length > safe) :
    chunkBodyE text safe = .ok (hardSplit text safe) := by
  have hne : text ≠ [] := by
    intro h
    rw [h] at hlong
    simp at hlong
  have hnl : ∀ c ∈ text, c ≠ '\n' := by
    intro c hc h
    have hcw := hws c hc
    rw [h] at hcw
    exact absurd hcw (by decide)
  unfold chunkBodyE
  rw [if_neg (by omega), reSplitParas_no_nl hnl, paraLoop_single hs hlong hne hws]
  dsimp only
  rw [if_neg (fun h : ([] : List Char) ≠ [] => h rfl), verifyE_all_le hardSplit_bound]
  dsimp only
  rw [filter_strip_eq_self (hardSplit_pieces_ne_nil hs)
      (fun c hc x hx => hws x (hardSplit_mem_subset c hc x hx)),
    if_neg (by have := listMaxLen_le (l := hardSplit text safe) hardSplit_bound; omega)]

theorem splitTextToChunks_single_token {text : List Char} {maxChunkSize : Nat}
    (h1 : min maxChunkSize 4000 ≠ 0) (hws : ∀ c ∈ text, pyWs c = false)
    (hlong : text.length > min maxChunkSize 4000) :
    splitTextToChunks text maxChunkSize = hardSplit text (min maxChunkSize 4000) := by
  unfold splitTextToChunks splitTextToChunksE
  rw [chunkBodyE_single_token h1 (by omega) hws hlong]

theorem hardSplit_replicate_4001 :
    hardSplit (List.replicate 4001 'a') 4000
      = [List.replicate 4000 'a', List.replicate 1 'a'] := by
  unfold hardSplit
  rw [List.length_replicate, show ((4001 + 4000 - 1) / 4000 : Nat) = 2 from by norm_num,
    show List.range 2 = [0, 1] from rfl]
  simp only [List.map_cons, List.map_nil, List.drop_replicate, List.take_replicate]
  rw [show (0 * 4000 : Nat) = 0 from rfl, show (1 * 4000 : Nat) = 4000 from by norm_num,
    Nat.sub_zero, show min 4000 4001 = 4000 from by norm_num,
    show (4001 - 4000 : Nat) = 1 from by norm_num, show min 4000 1 = 1 from by norm_num]

/-- C9 as stated fails: a 4001-character single-token text with
max_chunk_size = 5000 satisfies len(text) ≤ max_size, but the limit is clamped
to 4000 before the small-input test, so the text is split (into a 4000-chunk
and a 1-chunk) rather than returned unchanged. -/
theorem c9_counterexample :
    splitTextToChunks (List.replicate 4001 'a') 5000 ≠ [List.replicate 4001 'a'] := by
  rw [splitTextToChunks_single_token (by norm_num) mem_replicate_a_ws
      (by rw [List.length_replicate]; norm_num),
    show min 5000 4000 = 4000 from by norm_num, hardSplit_replicate_4001]
  intro h
  have h2 := congrArg List.length h
  rw [List.length_cons, List.length_cons, List.length_nil, List.length_cons,
    List.length_nil] at h2
  omega

/-! ## ChapterManager._find_explicit_chapters (src/core/chapter_manager.py 78-148)

The eleven source regex patterns use only literal strings, character classes
with greedy + and *, one capturing group, and the MULTILINE anchors ^ / $.
They are interpreted by a small backtracking matcher faithful to Python `re`
for this fragment: greedy quantifiers try the longest repetition count first
and backtrack on failure. -/

inductive RItem where
  | lit (s : List Char)
  | cls1 (p : Char → Bool)
  | star (p : Char → Bool)
  | starTry (p : Char → Bool) (k : Nat)
  | gopen
  | gclose
  | eol

structure MRes where
  stop : Nat
  gs : Option Nat
  ge : Option Nat

def countMunch (p : Char → Bool) (l : List Char) : Nat := (l.takeWhile p).length

/-- Backtracking matcher: match `items` against `rem` (the text from absolute
position `pos`); a greedy star is expanded to `starTry` at the maximal count,
which backtracks count-by-count.  `fuel` bounds the recursion depth; calls use
a fuel that provably dominates it. -/
def reMatch : Nat → List RItem → List Char → Nat → Option MRes
  | 0, _, _, _ => none
  | fuel + 1, items, rem, pos =>
    match items with
    | [] => some ⟨pos, none, none⟩
    | it :: rest =>
      match it with
      | .lit s =>
        if s.isPrefixOf rem then reMatch fuel rest (rem.drop s.length) (pos + s.length)
        else none
      | .cls1 p =>
        match rem with
        | c :: r => if p c then reMatch fuel rest r (pos + 1) else none
        | [] => none
      | .star p => reMatch fuel (.starTry p (countMunch p rem) :: rest) rem pos
      | .starTry p k =>
        match reMatch fuel rest (rem.drop k) (pos + k) with
        | some r => some r
        | none => if k = 0 then none else reMatch fuel (.starTry p (k - 1) :: rest) rem pos
      | .gopen =>
        match reMatch fuel rest rem pos with
        | some r => some { r with gs := some pos }
        | none => none
      | .gclose =>
        match reMatch fuel rest rem pos with
        | some r => some { r with ge := some pos }
        | none => none
      | .eol =>
        match rem with
        | [] => reMatch fuel rest rem pos
        | c :: _ => if c = '\n' then reMatch fuel rest rem pos else none

structure RPattern where
  bol : Bool
  useGroup : Bool
  items : List RItem

def digitC (c : Char) : Bool := '0' ≤ c && c ≤ '9'

def upperAZ (c : Char) : Bool := 'A' ≤ c && c ≤ 'Z'

def ivxC (c : Char) : Bool := c = 'I' || c = 'V' || c = 'X'

def dotColonC (c : Char) : Bool := c = '.' || c = ':'

def nonNlC (c : Char) : Bool := !(c = '\n')

def upperWsC (c : Char) : Bool := upperAZ c || pyWs c

/-- The captured group `([^\n]+)`. -/
def grpNonNl : List RItem := [.gopen, .cls1 nonNlC, .star nonNlC, .gclose]

/-- `X\s+\d+[.:]\s*([^\n]+)` for a keyword X (Chapter/CHAPTER/PART/...). -/
def keywordItems (kw : String) : List RItem :=
  [.lit (toL kw), .cls1 pyWs, .star pyWs, .cls1 digitC, .star digitC,
   .cls1 dotColonC, .star pyWs] ++ grpNonNl

/-- The eleven patterns of `_find_explicit_chapters`, in source order. -/
def chapterPatterns : List RPattern :=
  [ ⟨false, true, keywordItems "Chapter"⟩,
    ⟨false, true, keywordItems "CHAPTER"⟩,
    ⟨true, true, [.star pyWs, .cls1 digitC, .star digitC, .lit (toL ".")] ++ [.star pyWs] ++ grpNonNl⟩,
    ⟨true, true, [.star pyWs, .cls1 ivxC, .star ivxC, .lit (toL ".")] ++ [.star pyWs] ++ grpNonNl⟩,
    ⟨true, true, [.star pyWs, .cls1 upperAZ, .lit (toL ".")] ++ [.star pyWs] ++ grpNonNl⟩,
    ⟨true, true, [.star pyWs] ++ keywordItems "PART"⟩,
    ⟨true, true, [.star pyWs] ++ keywordItems "Part"⟩,
    ⟨true, true, [.star pyWs] ++ keywordItems "SECTION"⟩,
    ⟨true, true, [.star pyWs] ++ keywordItems "Section"⟩,
    ⟨true, true, [.star pyWs, .cls1 digitC, .star digitC, .cls1 pyWs, .star pyWs,
      .gopen, .cls1 upperAZ, .cls1 nonNlC, .star nonNlC, .gclose]⟩,
    ⟨true, false, [.star pyWs, .cls1 upperAZ, .cls1 upperWsC, .star upperWsC, .eol]⟩ ]

structure ExpMatch where
  title : List Char
  start : Nat
  stop : Nat

def matchFuel (n : Nat) : Nat := 4 * n + 64

/-- Title extraction as in the source: the captured group (group 1) for the
first ten patterns, the whole match for the final ALL-CAPS pattern; stripped. -/
def titleOf (text : List Char) (useGroup : Bool) (start stop : Nat)
    (gs ge : Option Nat) : List Char :=
  if useGroup then
    match gs, ge with
    | some a, some b => pyStrip (pySlice text a b)
    | _, _ => pyStrip (pySlice text start stop)
  else pyStrip (pySlice text start stop)

def isLineStart (text : List Char) (pos : Nat) : Bool :=
  pos = 0 || decide (text.get? (pos - 1) = some '\n')

/-- `re.finditer` for one pattern: scan left to right, at each position run the
matcher (respecting the MULTILINE ^ anchor); after a match continue at its
end. -/
def finditerGo (pat : RPattern) (text : List Char) : Nat → Nat → List ExpMatch
  | 0, _ => []
  | fuel + 1, pos =>
    if pos > text.length then []
    else
      let rem := text.drop pos
      match (if !pat.bol || isLineStart text pos then
              reMatch (matchFuel rem.length) pat.items rem pos else none) with
      | some r =>
        ⟨titleOf text pat.useGroup pos r.stop r.gs r.ge, pos, r.stop⟩ ::
          finditerGo pat text fuel (pos + max 1 (r.stop - pos))
      | none => finditerGo pat text fuel (pos + 1)

def finditer (pat : RPattern) (text : List Char) : List ExpMatch :=
  finditerGo pat text (text.length + 1) 0

/-- Stable insertion sort by match start (Python `list.sort` is stable). -/
def insertByStart (m : ExpMatch) : List ExpMatch → List ExpMatch
  | [] => [m]
  | x :: xs => if x.start < m.start then x :: insertByStart m xs else m :: x :: xs

def sortByStart : List ExpMatch → List ExpMatch
  | [] => []
  | x :: xs => insertByStart x (sortByStart xs)

/-- All matches of all patterns (pattern order, then position order), sorted
stably by start offset. -/
def findAllMatches (text : List Char) : List ExpMatch :=
  sortByStart ((chapterPatterns.map (fun p => finditer p text)).flatten)

abbrev Chapter := List Char × List Char

/-- Build chapters between consecutive markers (lines 124-148): each chapter's
content runs from its marker's end to the next marker's start (or text end),
stripped; chapters with empty content are skipped. -/
def matchesToChapters (text : List Char) : List ExpMatch → List Chapter
  | [] => []
  | m :: rest =>
    let e := match rest with | [] => text.length | m2 :: _ => m2.start
    let content := pyStrip (pySlice text m.stop e)
    if content = [] then matchesToChapters text rest
    else (m.title, content) :: matchesToChapters text rest

/-- `ChapterManager._find_explicit_chapters` (its body is total in the
modelled fragment, so its try/except handler is never exercised). -/
def findExplicitChapters (text : List Char) : List Chapter :=
  matchesToChapters text (findAllMatches text)

/-! ## ChapterManager._fallback_chapter_detection (chapter_manager.py 364-529) -/

def completeDocumentT : List Char := toL "Complete Document"

def sentMarkers : List (List Char) := [toL ". ", toL "! ", toL "? ", toL ".\n", toL "!\n", toL "?\n"]

def findSentEnd (text : List Char) (lo hi : Nat) : List (List Char) → Option Nat
  | [] => none
  | mk :: rest =>
    match pyFind text mk lo hi with
    | some p => some (p + mk.length)
    | none => findSentEnd text lo hi rest

/-- Breakpoint search (lines 413-432): paragraph break in a ±500 window, else
first sentence-end marker in a ±300 window, else a space in a ±100 window,
else keep the target offset.  (In every reachable state the target offset
exceeds 500, so the truncated Nat subtractions agree with Python.) -/
def adjustBreak (text : List Char) (np : Nat) : Nat :=
  match pyFind text (toL "\n\n") (np - 500) (np + 500) with
  | some p => p + 2
  | none =>
    match findSentEnd text (np - 300) (np + 300) sentMarkers with
    | some q => q
    | none =>
      match pyFind text (toL " ") (np - 100) (np + 100) with
      | some p => p + 1
      | none => np

/-- Title heuristic for a fallback chapter (lines 451-476); returns the title
and the (possibly deduplicated) content. -/
def mkTitle (content : List Char) (chapNum : Nat) : List Char × List Char :=
  let pt := pyStrip (content.takeWhile (fun c => !(c = '\n')))
  if pt.length < 100 ∧
      (sIsUpper pt ∨ (toL "Chapter").isPrefixOf pt ∨ (toL "CHAPTER").isPrefixOf pt ∨
       (toL "Part").isPrefixOf pt ∨ (toL "PART").isPrefixOf pt ∨
       (toL "Section").isPrefixOf pt ∨ (toL "SECTION").isPrefixOf pt) then
    (pt, if pt.isPrefixOf content ∧ pyCount content pt > 1 then
      pyStrip (content.drop pt.length) else content)
  else
    let firstLine := pyStrip (pt.take 50)
    (if firstLine.length > 30 then
      toL "Part " ++ natToChars chapNum ++ toL ": " ++ firstLine.take 30 ++ toL "..."
     else toL "Part " ++ natToChars chapNum ++ toL ": " ++ firstLine, content)

/-- Merge a trailing short fragment into the previous chapter (lines 443-449). -/
def mergeFragment (chapters : List Chapter) (frag : List Char) : List Chapter :=
  match chapters.getLast? with
  | none => chapters
  | some (t, c) => chapters.dropLast ++ [(t, c ++ '\n' :: '\n' :: frag)]

/-- Next-chapter end position (lines 410-437): target offset, adjusted to a
nearby natural break, with the forced-progress guard. -/
def nextBreak (text : List Char) (target cp : Nat) : Nat :=
  let np0 := min (cp + target) text.length
  let np1 := if np0 < text.length - 100 then adjustBreak text np0 else np0
  if np1 ≤ cp then min (cp + 1000) text.length else np1

/-- The chapter-building while loop of `_fallback_chapter_detection`
(lines 405-487).  Returns (chapters, current_pos, chapter_num) at loop exit.
Each iteration advances current_pos by at least one, so the fuel
`text.length + 1` used at the call site never runs out. -/
def walkLoopGo (text : List Char) (mc target : Nat) :
    Nat → Nat → List Chapter → Nat → List Chapter × Nat × Nat
  | 0, cp, chapters, chapNum => (chapters, cp, chapNum)
  | fuel + 1, cp, chapters, chapNum =>
    if cp < text.length ∧ chapters.length < mc then
      let np2 := nextBreak text target cp
      let content := pyStrip (pySlice text cp np2)
      if content.length < 50 ∧ chapNum > 1 ∧ cp > text.length - 100 then
        (mergeFragment chapters content, cp, chapNum)
      else
        let tc := mkTitle content chapNum
        walkLoopGo text mc target fuel np2
          (if tc.2 ≠ [] then chapters ++ [(tc.1, tc.2)] else chapters) (chapNum + 1)
    else (chapters, cp, chapNum)

/-- Try-block body of `_fallback_chapter_detection`; `recur` is the recursive
call to the public method (line 513), and integer division by a zero chapter
count raises. -/
def fallbackBodyE (recur : List Char → Nat → List Chapter) (text : List Char)
    (mc : Nat) : Except PyErr (List Chapter) :=
  if text = [] ∨ text.length < 100 then .ok [(completeDocumentT, text)]
  else if text.length < 20000 then .ok [(completeDocumentT, text)]
  else
    let total := text.length
    let mc1 := if total > 500000 ∧ mc < 20 then max mc 20 else mc
    let num :=
      if total < 50000 then min 3 mc1
      else if total < 200000 then min 5 mc1
      else if total < 500000 then min 10 mc1
      else min mc1 (max 15 (total / 50000))
    if num = 0 then .error .zeroDivisionError
    else
      let w := walkLoopGo text mc1 (total / num) (total + 1) 0 [] 1
      let chapters1 :=
        if w.2.1 < total ∧ pyStrip (text.drop w.2.1) ≠ [] then
          w.1 ++ [(toL "Part " ++ natToChars w.2.2 ++ toL ": Final Section",
            pyStrip (text.drop w.2.1))]
        else w.1
      if chapters1 = [] then .ok [(completeDocumentT, text)]
      else
        let trimmed := (pyStrip text).length
        if trimmed = 0 ∨ 20 * totalLen chapters1 < 19 * trimmed then
          if total > 500000 ∧ num < 30 then .ok (recur text (max 30 mc1))
          else .ok [(completeDocumentT, text)]
        else
          if chapters1.length = 1 then
            .ok [(completeDocumentT, (chapters1.headD ([], [])).2)]
          else .ok chapters1

/-- `_fallback_chapter_detection` with its try/except handler.  `fuel` is the
remaining interpreter recursion depth: exhausting it models `RecursionError`,
which the innermost handler converts to the single-chapter fallback (the
content-loss retry at line 513 can recurse with unchanged arguments). -/
def fallbackDetection : Nat → List Char → Nat → List Chapter
  | 0, text, _ => [(completeDocumentT, text)]
  | fuel + 1, text, mc =>
    match fallbackBodyE (fallbackDetection fuel) text mc with
    | .ok r => r
    | .error _ => [(completeDocumentT, text)]

def pyRecursionLimit : Nat := 1000

/-! ## ChapterManager.detect_chapters (chapter_manager.py 18-76) -/

/-- The semantic strategy `_detect_semantic_chapters` depends on the spaCy
sentence segmenter, an external collaborator; the detection theorems quantify
over every possible behaviour of it (the real one is total: its try/except
returns [] on any internal error). -/
abbrev SemStrategy := List Char → Nat → List Chapter

/-- Strategy cascade (lines 37-48): explicit markers, else semantic, else the
fixed-size fallback. -/
def strategyChapters (sem : SemStrategy) (text : List Char) (mc : Nat) : List Chapter :=
  let c1 := findExplicitChapters text
  let c2 := if c1 = [] then sem text mc else c1
  if c2 = [] then fallbackDetection pyRecursionLimit text mc else c2

/-- Try-block body of `detect_chapters`: short-text guard, strategy cascade,
coverage check (the float comparison `total/orig < 0.90` is the exact rational
comparison `10 * total < 9 * orig`; the division would raise if the trimmed
length were zero, but the guard makes that unreachable). -/
def detectBodyE (sem : SemStrategy) (text : List Char) (mc : Nat) :
    Except PyErr (List Chapter) :=
  if text = [] ∨ (pyStrip text).length < 100 then .ok [(completeDocumentT, text)]
  else
    let chapters := strategyChapters sem text mc
    if chapters = [] then .ok [(completeDocumentT, text)]
    else
      let orig := (pyStrip text).length
      if orig = 0 then .error .zeroDivisionError
      else if 10 * totalLen chapters < 9 * orig then .ok [(completeDocumentT, text)]
      else .ok chapters

/-- `detect_chapters` with its catch-all except handler (lines 72-76). -/
def detectChaptersE (sem : SemStrategy) (text : List Char) (mc : Nat) :
    Except PyErr (List Chapter) :=
  match detectBodyE sem text mc with
  | .ok r => .ok r
  | .error _ => .ok [(completeDocumentT, text)]

/-- The (total) result of `detect_chapters`; the `.error` arm is unreachable
because the except handler always returns. -/
def detectChapters (sem : SemStrategy) (text : List Char) (mc : Nat) : List Chapter :=
  match detectChaptersE sem text mc with
  | .ok r => r
  | .error _ => [(completeDocumentT, text)]

/-! ## Detection lemmas and claims C2, C3, C5, C8, C10 -/

theorem detectChapters_of_body {sem : SemStrategy} {text : List Char} {mc : Nat}
    {r : List Chapter} (h : detectBodyE sem text mc = .ok r) :
    detectChapters sem text mc = r := by
  unfold detectChapters detectChaptersE
  rw [h]

theorem detectBodyE_cases (sem : SemStrategy) (text : List Char) (mc : Nat) :
    detectBodyE sem text mc = .ok [(completeDocumentT, text)] ∨
      (∃ r, detectBodyE sem text mc = .ok r ∧ r ≠ [] ∧
        9 * (pyStrip text).length ≤ 10 * totalLen r) := by
  unfold detectBodyE
  by_cases h1 : text = [] ∨ (pyStrip text).length < 100
  · rw [if_pos h1]
    left
    rfl
  · rw [if_neg h1]
    by_cases h2 : strategyChapters sem text mc = []
    · rw [if_pos h2]
      left
      rfl
    · rw [if_neg h2]
      have horig : (pyStrip text).length ≠ 0 := by
        push_neg at h1
        omega
      rw [if_neg horig]
      by_cases h3 : 10 * totalLen (strategyChapters sem text mc) < 9 * (pyStrip text).length
      · rw [if_pos h3]
        left
        rfl
      · rw [if_neg h3]
        right
        exact ⟨_, rfl, h2, by omega⟩

/-- C2: for every behaviour of the semantic collaborator, every text and every
max_chapters, detect_chapters either returns chapters whose aggregate content
length is at least 0.90 of the trimmed input length, or returns exactly the
single-chapter fallback [("Complete Document", text)]. -/
theorem c2_theorem (sem : SemStrategy) (text : List Char) (mc : Nat) :
    9 * (pyStrip text).length ≤ 10 * totalLen (detectChapters sem text mc) ∨
      detectChapters sem text mc = [(completeDocumentT, text)] := by
  rcases detectBodyE_cases sem text mc with h | ⟨r, hr, -, hcov⟩
  · right
    exact detectChapters_of_body h
  · left
    rw [detectChapters_of_body hr]
    exact hcov

/-- C3: detect_chapters, the enhanced chunker and the engine splitter return
normally (Except.ok) for every string input — including the empty string, a
single character, and a single token longer than the limit — because every
internal exception is converted by a catch-all handler into the documented
fallback value. -/
theorem c3_theorem (sem : SemStrategy) (text : List Char) (mc maxChunkSize : Nat) :
    (∃ r, detectChaptersE sem text mc = .ok r) ∧
    (∃ c, splitTextToChunksE text maxChunkSize = .ok c) ∧
    (∃ c, engineSplitTextE text maxChunkSize = .ok c) := by
  refine ⟨?_, ?_, ?_⟩
  · unfold detectChaptersE
    cases detectBodyE sem text mc with
    | ok r => exact ⟨r, rfl⟩
    | error e => exact ⟨_, rfl⟩
  · unfold splitTextToChunksE
    cases chunkBodyE text (min maxChunkSize 4000) with
    | ok r => exact ⟨r, rfl⟩
    | error e => exact ⟨_, rfl⟩
  · unfold engineSplitTextE splitTextToChunksE
    cases chunkBodyE text (min (min maxChunkSize 4000) 4000) with
    | ok r => exact ⟨r, rfl⟩
    | error e => exact ⟨_, rfl⟩

/-- C10: detect_chapters always returns a non-empty chapter list, and in the
fallback cases (trimmed input under 100 characters; winning chapters covering
less than 90%) the single chapter is ("Complete Document", text) with the
original input text verbatim. -/
theorem c10_theorem (sem : SemStrategy) (text : List Char) (mc : Nat) :
    detectChapters sem text mc ≠ [] ∧
    ((pyStrip text).length < 100 →
      detectChapters sem text mc = [(completeDocumentT, text)]) ∧
    (100 ≤ (pyStrip text).length →
      10 * totalLen (strategyChapters sem text mc) < 9 * (pyStrip text).length →
      detectChapters sem text mc = [(completeDocumentT, text)]) := by
  refine ⟨?_, ?_, ?_⟩
  · rcases detectBodyE_cases sem text mc with h | ⟨r, hr, hne, -⟩
    · rw [detectChapters_of_body h]
      intro hc
      exact List.cons_ne_nil _ _ hc
    · rw [detectChapters_of_body hr]
      exact hne
  · intro hshort
    apply detectChapters_of_body
    unfold detectBodyE
    rw [if_pos (Or.inr hshort)]
  · intro hlen hcov
    apply detectChapters_of_body
    unfold detectBodyE
    rw [if_neg (by push_neg; refine ⟨?_, by omega⟩; intro he; rw [he] at hlen; simp [pyStrip] at hlen)]
    by_cases h2 : strategyChapters sem text mc = []
    · rw [if_pos h2]
    · rw [if_neg h2, if_neg (by omega), if_pos hcov]

theorem strategyChapters_explicit {sem : SemStrategy} {text : List Char} {mc : Nat}
    (h : findExplicitChapters text ≠ []) :
    strategyChapters sem text mc = findExplicitChapters text := by
  simp only [strategyChapters, h, if_false]

theorem detect_explicit_lowcov (sem : SemStrategy) (text : List Char) (mc : Nat)
    (hne : findExplicitChapters text ≠ [])
    (hcov : 10 * totalLen (findExplicitChapters text) < 9 * (pyStrip text).length) :
    detectChapters sem text mc = [(completeDocumentT, text)] := by
  apply detectChapters_of_body
  unfold detectBodyE
  by_cases h1 : text = [] ∨ (pyStrip text).length < 100
  · rw [if_pos h1]
  · rw [if_neg h1, strategyChapters_explicit hne, if_neg hne,
      if_neg (by push_neg at h1; omega), if_pos hcov]

/-- C5 (amended): the explicit-marker chapters are committed only when their
coverage is at least 0.90 of the trimmed source; when the explicit strategy
yields at least one chapter with coverage below 0.90, detect_chapters returns
the single-chapter fallback (Strategy B runs only when the explicit strategy
yields no chapters at all). -/
theorem c5_theorem (sem : SemStrategy) (text : List Char) (mc : Nat)
    (hne : findExplicitChapters text ≠ [])
    (hcov : 10 * totalLen (findExplicitChapters text) < 9 * (pyStrip text).length) :
    detectChapters sem text mc = [(completeDocumentT, text)] :=
  detect_explicit_lowcov sem text mc hne hcov

/-- The C8 scenario input: "Chapter 1: A", a 200-character body line,
"Chapter 2: B", a 200-character body line. -/
def c8input : List Char :=
  toL "Chapter 1: A" ++ '\n' :: List.replicate 200 'b'
    ++ '\n' :: toL "Chapter 2: B" ++ '\n' :: List.replicate 200 'b'

/-- C8: on the explicit-marker scenario input, detect_chapters returns exactly
two chapters titled "A" and "B" (the regex captured groups), each containing
its 200-character body, for every behaviour of the semantic collaborator
(Strategy B is not consulted). -/
theorem c8_theorem (sem : SemStrategy) :
    detectChapters sem c8input 30
      = [(toL "A", List.replicate 200 'b'), (toL "B", List.replicate 200 'b')] := by
  have hexp : findExplicitChapters c8input
      = [(toL "A", List.replicate 200 'b'), (toL "B", List.replicate 200 'b')] := by decide
  apply detectChapters_of_body
  unfold detectBodyE
  rw [if_neg (by decide), strategyChapters_explicit (by rw [hexp]; decide), hexp,
    if_neg (by decide), if_neg (by decide), if_neg (by decide)]

/-- The C5 deciding input: 150 characters of plain prose (no marker), then an
explicit "Chapter 1: y" marker whose chapter content is only "tail". -/
def c5input : List Char :=
  List.replicate 150 'x' ++ '\n' :: toL "Chapter 1: y" ++ '\n' :: toL "tail"

/-- A distinctive always-succeeding semantic strategy used to witness that
Strategy B is not consulted. -/
def semMarked : SemStrategy := fun t _ => [(toL "SEMANTIC", t)]

/-- C5 as stated fails: on c5input the explicit strategy yields one chapter
with coverage far below 0.90, and detect_chapters returns the single-chapter
fallback — it does not fall through to Strategy B, whose (here
always-succeeding, distinctively titled) result is not returned. -/
theorem c5_counterexample :
    findExplicitChapters c5input ≠ [] ∧
    10 * totalLen (findExplicitChapters c5input) < 9 * (pyStrip c5input).length ∧
    detectChapters semMarked c5input 30 = [(completeDocumentT, c5input)] ∧
    detectChapters semMarked c5input 30 ≠ semMarked c5input 30 := by
  refine ⟨by decide, by decide, ?_, ?_⟩
  · exact detect_explicit_lowcov semMarked c5input 30 (by decide) (by decide)
  · rw [detect_explicit_lowcov semMarked c5input 30 (by decide) (by decide)]
    decide

/-- Witness for the amended C5 at the concrete input. -/
theorem c5_witness :
    detectChapters semMarked c5input 30 = [(completeDocumentT, c5input)] :=
  c5_theorem semMarked c5input 30 (by decide) (by decide)

/-! ## Claim C7: the fallback chapter count -/

theorem mergeFragment_length (chapters : List Chapter) (frag : List Char) :
    (mergeFragment chapters frag).length = chapters.length := by
  unfold mergeFragment
  cases h : chapters.getLast? with
  | none => rfl
  | some tc =>
    obtain ⟨t, c⟩ := tc
    have hne : chapters ≠ [] := by
      intro hnil
      rw [hnil] at h
      exact absurd h (by simp)
    rw [List.length_append, List.length_dropLast]
    have : 1 ≤ chapters.length := List.length_pos.2 hne
    simp
    omega

theorem walkLoopGo_length_le (text : List Char) (mc target : Nat) :
    ∀ fuel cp chapters chapNum, chapters.length ≤ mc →
      (walkLoopGo text mc target fuel cp chapters chapNum).1.length ≤ mc := by
  intro fuel
  induction fuel with
  | zero => intro cp chapters chapNum h; exact h
  | succ f ih =>
    intro cp chapters chapNum h
    unfold walkLoopGo
    by_cases hg : cp < text.length ∧ chapters.length < mc
    · rw [if_pos hg]
      dsimp only
      split
      · simpa [mergeFragment_length] using h
      · apply ih
        split
        · rw [List.length_append]
          simp only [List.length_cons, List.length_nil]
          omega
        · exact h
    · rw [if_neg hg]
      exact h

theorem fallbackBodyE_length_le {recur : List Char → Nat → List Chapter}
    {text : List Char} {mc : Nat}
    (hrec : ∀ m, (recur text m).length ≤ max m 30 + 1)
    {r : List Chapter} (h : fallbackBodyE recur text mc = .ok r) :
    r.length ≤ max mc 30 + 1 := by
  unfold fallbackBodyE at h
  split at h
  · cases h
    simp
  · split at h
    · cases h
      simp
    · dsimp only at h
      set mc1 := if text.length > 500000 ∧ mc < 20 then max mc 20 else mc with hmc1
      have hmc1le : max mc1 30 ≤ max mc 30 := by
        rw [hmc1]
        split <;> omega
      set num := (if text.length < 50000 then min 3 mc1
        else if text.length < 200000 then min 5 mc1
        else if text.length < 500000 then min 10 mc1
        else min mc1 (max 15 (text.length / 50000))) with hnum
      set w := walkLoopGo text mc1 (text.length / num) (text.length + 1) 0 [] 1 with hw
      have hwalk : w.1.length ≤ mc1 := by
        rw [hw]
        exact walkLoopGo_length_le _ _ _ _ _ _ _ (by simp)
      set chapters1 := (if w.2.1 < text.length ∧ pyStrip (List.drop w.2.1 text) ≠ [] then
          w.1 ++ [(toL "Part " ++ natToChars w.2.2 ++ toL ": Final Section",
            pyStrip (List.drop w.2.1 text))] else w.1) with hch
      have hchlen : chapters1.length ≤ mc1 + 1 := by
        rw [hch]
        split
        · rw [List.length_append]
          simp only [List.length_cons, List.length_nil]
          omega
        · omega
      split at h
      · exact absurd h (by simp)
      · split at h
        · cases h
          simp
        · split at h
          · split at h
            · cases h
              calc (recur text (max 30 mc1)).length
                  ≤ max (max 30 mc1) 30 + 1 := hrec _
                _ ≤ max mc 30 + 1 := by omega
            · cases h
              simp
          · split at h
            · injection h with h2
              rw [← h2]
              simp
            · injection h with h2
              rw [← h2]
              omega

theorem fallbackDetection_length_le (fuel : Nat) :
    ∀ (text : List Char) (mc : Nat),
      (fallbackDetection fuel text mc).length ≤ max mc 30 + 1 := by
  induction fuel with
  | zero => intro text mc; simp [fallbackDetection]
  | succ f ih =>
    intro text mc
    unfold fallbackDetection
    cases hb : fallbackBodyE (fallbackDetection f) text mc with
    | ok r => exact fallbackBodyE_length_le (fun m => ih text m) hb
    | error e => simp

/-- C7 (amended): for every text and every max_chapters, the fallback strategy
returns at most max(max_chapters, 30) + 1 chapters: the walk itself emits at
most max_chapters chapters (auto-raised to at least 20, and on the
content-loss retry to at least 30, for documents over 500,000 characters) and
the trailing remainder may add one final chapter beyond the cap. -/
theorem c7_theorem (fuel : Nat) (text : List Char) (mc : Nat) :
    (fallbackDetection fuel text mc).length ≤ max mc 30 + 1 :=
  fallbackDetection_length_le fuel text mc

/-! ### The deciding input for C7: a 20000-character document with paragraph
breaks placed exactly where the breakpoint search looks, so that the walk
hits the max_chapters cap with text remaining, and the trailing remainder
becomes a (max_chapters + 1)-th chapter. -/

def c7A : List Char := List.replicate 9500 'a'

def c7B : List Char := List.replicate 996 'a'

def c7input : List Char := c7A ++ '\n' :: '\n' :: (c7A ++ '\n' :: '\n' :: c7B)

theorem c7A_length : c7A.length = 9500 := by
  rw [c7A, List.length_replicate]

theorem c7B_length : c7B.length = 996 := by
  rw [c7B, List.length_replicate]

theorem c7A_ne_nil : c7A ≠ [] := by
  rw [c7A, show (9500 : Nat) = 9499 + 1 from rfl, List.replicate_succ]
  exact List.cons_ne_nil _ _

theorem c7B_ne_nil : c7B ≠ [] := by
  rw [c7B, show (996 : Nat) = 995 + 1 from rfl, List.replicate_succ]
  exact List.cons_ne_nil _ _

theorem c7A_ws : ∀ c ∈ c7A, pyWs c = false := by
  rw [c7A]; exact mem_replicate_a_ws

theorem c7B_ws : ∀ c ∈ c7B, pyWs c = false := by
  rw [c7B]; exact mem_replicate_a_ws

theorem c7input_length : c7input.length = 20000 := by
  rw [c7input, List.length_append, List.length_cons, List.length_cons,
    List.length_append, List.length_cons, List.length_cons, c7A_length, c7B_length]

theorem c7_drop_9500 : c7input.drop 9500 = '\n' :: '\n' :: (c7A ++ '\n' :: '\n' :: c7B) := by
  rw [c7input, show (9500 : Nat) = c7A.length from by rw [c7A_length], List.drop_left]

theorem c7_drop_9502 : c7input.drop 9502 = c7A ++ '\n' :: '\n' :: c7B := by
  rw [show (9502 : Nat) = 9500 + 2 from rfl, ← List.drop_drop, c7_drop_9500,
    show (2 : Nat) = 1 + 1 from rfl, List.drop_succ_cons, List.drop_succ_cons,
    List.drop_zero]

theorem c7_drop_19002 : c7input.drop 19002 = '\n' :: '\n' :: c7B := by
  rw [show (19002 : Nat) = 9502 + 9500 from rfl, ← List.drop_drop, c7_drop_9502,
    show (9500 : Nat) = c7A.length from by rw [c7A_length], List.drop_left]

theorem c7_drop_19004 : c7input.drop 19004 = c7B := by
  rw [show (19004 : Nat) = 19002 + 2 from rfl, ← List.drop_drop, c7_drop_19002,
    show (2 : Nat) = 1 + 1 from rfl, List.drop_succ_cons, List.drop_succ_cons,
    List.drop_zero]

theorem c7_take_9502 : c7input.take 9502 = c7A ++ ['\n', '\n'] := by
  rw [c7input, show (9502 : Nat) = c7A.length + 2 from by rw [c7A_length], List.take_append,
    show (2 : Nat) = 1 + 1 from rfl, List.take_succ_cons, List.take_succ_cons,
    List.take_zero]

theorem c7_slice_mid : pySlice c7input 9502 19004 = c7A ++ ['\n', '\n'] := by
  rw [pySlice, c7_drop_9502, show (19004 - 9502 : Nat) = c7A.length + 2 from by rw [c7A_length],
    List.take_append, show (2 : Nat) = 1 + 1 from rfl, List.take_succ_cons,
    List.take_succ_cons, List.take_zero]

theorem dropWhile_ws_append {w r : List Char} (hw : ∀ c ∈ w, pyWs c = true) :
    (w ++ r).dropWhile pyWs = r.dropWhile pyWs := by
  induction w with
  | nil => rfl
  | cons c t ih =>
    rw [List.cons_append, List.dropWhile_cons, if_pos (hw c (by simp))]
    exact ih (fun x hx => hw x (by simp [hx]))

/-- Strip of a block of non-whitespace followed by trailing whitespace. -/
theorem pyStrip_append_ws {a w : List Char} (hne : a ≠ [])
    (ha : ∀ c ∈ a, pyWs c = false) (hw : ∀ c ∈ w, pyWs c = true) :
    pyStrip (a ++ w) = a := by
  unfold pyStrip
  obtain ⟨c, t, rfl⟩ := List.exists_cons_of_ne_nil hne
  have h1 : ((c :: t) ++ w).dropWhile pyWs = (c :: t) ++ w := by
    rw [List.cons_append, List.dropWhile_cons, if_neg (by simp [ha c (by simp)])]
  rw [h1, List.reverse_append,
    dropWhile_ws_append (fun x hx => hw x (List.mem_reverse.1 hx))]
  obtain ⟨d, s, hds⟩ := List.exists_cons_of_ne_nil
    (l := (c :: t).reverse) (by simp)
  have hd : pyWs d = false := by
    apply ha
    rw [← List.mem_reverse, hds]
    simp
  rw [hds, List.dropWhile_cons, if_neg (by simp [hd]), ← hds, List.reverse_reverse]

/-- Strip of a list whose first and last characters are non-whitespace. -/
theorem pyStrip_eq_self_of_ends (c d : Char) (t : List Char)
    (hc : pyWs c = false) (hd : pyWs d = false) :
    pyStrip (c :: (t ++ [d])) = c :: (t ++ [d]) := by
  have h2 : (c :: (t ++ [d])).reverse = d :: (t.reverse ++ [c]) := by
    rw [List.reverse_cons, List.reverse_append, List.reverse_singleton,
      List.singleton_append, List.cons_append]
  rw [pyStrip, List.dropWhile_cons, if_neg (by simp [hc]), h2,
    List.dropWhile_cons, if_neg (by simp [hd]), ← h2, List.reverse_reverse]

theorem c7_assoc_helper (r1 r2 r3 : List Char) :
    (r1 ++ '\n' :: '\n' :: (r2 ++ '\n' :: '\n' :: r3)) ++ ['a']
      = r1 ++ '\n' :: '\n' :: (r2 ++ '\n' :: '\n' :: (r3 ++ ['a'])) := by
  simp [List.append_assoc]

theorem c7input_decomp :
    c7input = 'a' :: ((List.replicate 9499 'a'
      ++ '\n' :: '\n' :: (c7A ++ '\n' :: '\n' :: List.replicate 995 'a')) ++ ['a']) := by
  rw [c7input]
  nth_rewrite 1 [show c7A = 'a' :: List.replicate 9499 'a' from by
    rw [c7A, show (9500 : Nat) = 9499 + 1 from rfl, List.replicate_succ]]
  rw [show c7B = List.replicate 995 'a' ++ ['a'] from by
      rw [c7B, show (996 : Nat) = 995 + 1 from rfl, List.replicate_succ'],
    List.cons_append, c7_assoc_helper]

theorem c7_strip_input : pyStrip c7input = c7input := by
  rw [c7input_decomp]
  exact pyStrip_eq_self_of_ends 'a' 'a' _ rfl rfl

theorem twoNl_isPrefixOf (r : List Char) :
    (toL "\n\n").isPrefixOf ('\n' :: '\n' :: r) = true := by
  rw [show toL "\n\n" = ['\n', '\n'] from by decide]
  simp [List.isPrefixOf]

/-- `text.find(sub, s, e)` returns `s` itself when `sub` occurs right at `s`
within the window. -/
theorem pyFind_found_at (text sub : List Char) (s e : Nat) (c : Char) (t : List Char)
    (hdrop : text.drop s = c :: t)
    (hpre : sub.isPrefixOf (c :: t) = true)
    (hle : s + sub.length ≤ min e text.length) :
    pyFind text sub s e = some s := by
  rw [pyFind]
  rw [if_neg (by omega), hdrop, pyFindGo.eq_2, if_neg (by omega), if_pos hpre]

theorem c7_find_1 : pyFind c7input (toL "\n\n") 9500 10500 = some 9500 := by
  apply pyFind_found_at c7input (toL "\n\n") 9500 10500 '\n'
    ('\n' :: (c7A ++ '\n' :: '\n' :: c7B)) c7_drop_9500
    (twoNl_isPrefixOf (c7A ++ '\n' :: '\n' :: c7B))
  rw [show (toL "\n\n").length = 2 from by decide, c7input_length]
  omega

theorem c7_find_2 : pyFind c7input (toL "\n\n") 19002 20002 = some 19002 := by
  apply pyFind_found_at c7input (toL "\n\n") 19002 20002 '\n' ('\n' :: c7B) c7_drop_19002
    (twoNl_isPrefixOf c7B)
  rw [show (toL "\n\n").length = 2 from by decide, c7input_length]
  omega

theorem c7_adjust_1 : adjustBreak c7input 10000 = 9502 := by
  rw [adjustBreak, show (10000 : Nat) - 500 = 9500 from rfl,
    show (10000 : Nat) + 500 = 10500 from rfl, c7_find_1]

theorem c7_adjust_2 : adjustBreak c7input 19502 = 19004 := by
  rw [adjustBreak, show (19502 : Nat) - 500 = 19002 from rfl,
    show (19502 : Nat) + 500 = 20002 from rfl, c7_find_2]

theorem c7_next_1 : nextBreak c7input 10000 0 = 9502 := by
  rw [nextBreak]
  rw [c7input_length, show min (0 + 10000) 20000 = 10000 from by omega,
    if_pos (show (10000 : Nat) < 20000 - 100 from by norm_num), c7_adjust_1,
    if_neg (show ¬ (9502 : Nat) ≤ 0 from by norm_num)]

theorem c7_next_2 : nextBreak c7input 10000 9502 = 19004 := by
  rw [nextBreak]
  rw [c7input_length, show min (9502 + 10000) 20000 = 19502 from by omega,
    if_pos (show (19502 : Nat) < 20000 - 100 from by norm_num), c7_adjust_2,
    if_neg (show ¬ (19004 : Nat) ≤ 9502 from by norm_num)]

theorem c7_nlnl_ws : ∀ c ∈ ['\n', '\n'], pyWs c = true := by decide

theorem c7_content_1 : pyStrip (pySlice c7input 0 9502) = c7A := by
  rw [pySlice, List.drop_zero, Nat.sub_zero, c7_take_9502]
  exact pyStrip_append_ws c7A_ne_nil c7A_ws c7_nlnl_ws

theorem c7_content_2 : pyStrip (pySlice c7input 9502 19004) = c7A := by
  rw [c7_slice_mid]
  exact pyStrip_append_ws c7A_ne_nil c7A_ws c7_nlnl_ws

theorem c7_strip_B : pyStrip c7B = c7B := pyStrip_of_no_ws c7B_ws

theorem c7input_ne_nil : c7input ≠ [] := by
  rw [c7input_decomp]
  exact List.cons_ne_nil _ _

/-- The title heuristic never alters a 9500-character single-line chapter body. -/
theorem c7_mkTitle_snd (n : Nat) : (mkTitle c7A n).2 = c7A := by
  have hmem : ∀ c ∈ c7A, (!(c = '\n')) = true := by
    intro c hc
    rw [c7A] at hc
    rw [List.eq_of_mem_replicate hc]
    decide
  have hpt : pyStrip (List.takeWhile (fun c => !(c = '\n')) c7A) = c7A := by
    rw [takeWhile_eq_self_of hmem, pyStrip_of_no_ws c7A_ws]
  rw [mkTitle]
  dsimp only
  rw [hpt, if_neg (fun h => absurd h.1 (by rw [c7A_length]; norm_num))]

/-- The chapter walk on `c7input` with `max_chapters = 2` and target 10000:
two 9500-character chapters are cut at the paragraph breaks, then the loop
stops at the cap with 996 characters of text left unconsumed. -/
theorem c7_walk :
    walkLoopGo c7input 2 10000 20001 0 [] 1
      = ([((mkTitle c7A 1).1, c7A), ((mkTitle c7A 2).1, c7A)], 19004, 3) := by
  rw [show (20001 : Nat) = Nat.succ 20000 from rfl, walkLoopGo.eq_2]
  dsimp only
  rw [c7input_length, c7_next_1, c7_content_1]
  rw [if_pos (show (0 : Nat) < 20000 ∧ ([] : List Chapter).length < 2 from by simp)]
  rw [if_neg (fun h => absurd h.2.1 (by norm_num))]
  rw [c7_mkTitle_snd, if_pos c7A_ne_nil, List.nil_append,
    show (1 : Nat) + 1 = 2 from rfl]
  rw [show (20000 : Nat) = Nat.succ 19999 from rfl, walkLoopGo.eq_2]
  dsimp only
  rw [c7input_length, c7_next_2, c7_content_2]
  rw [if_pos (show (9502 : Nat) < 20000 ∧
    ([((mkTitle c7A 1).1, c7A)] : List Chapter).length < 2 from by simp)]
  rw [if_neg (fun h => absurd h.2.2 (by norm_num))]
  rw [c7_mkTitle_snd, if_pos c7A_ne_nil, List.singleton_append,
    show (2 : Nat) + 1 = 3 from rfl]
  rw [show (19999 : Nat) = Nat.succ 19998 from rfl, walkLoopGo.eq_2]
  rw [if_neg (fun h => absurd h.2 (by simp))]

theorem totalLen_three (t1 t2 t3 a b c : List Char) :
    totalLen [(t1, a), (t2, b), (t3, c)] = a.length + b.length + c.length := by
  simp [totalLen]
  omega

/-- Full evaluation of the fallback strategy on `c7input` with
`max_chapters = 2`: the walk's two chapters plus the trailing 996-character
remainder, a third chapter, survive the coverage check (19996 of 20000
characters) and are returned. -/
theorem c7_fallback (fuel : Nat) :
    fallbackDetection (fuel + 1) c7input 2
      = [((mkTitle c7A 1).1, c7A), ((mkTitle c7A 2).1, c7A),
         (toL "Part " ++ natToChars 3 ++ toL ": Final Section", c7B)] := by
  have hbody : fallbackBodyE (fallbackDetection fuel) c7input 2
      = Except.ok [((mkTitle c7A 1).1, c7A), ((mkTitle c7A 2).1, c7A),
        (toL "Part " ++ natToChars 3 ++ toL ": Final Section", c7B)] := by
    rw [fallbackBodyE.eq_def]
    dsimp only
    rw [c7input_length]
    rw [if_neg (fun h => h.elim (fun h1 => c7input_ne_nil h1) (fun h2 => by norm_num at h2))]
    rw [if_neg (show ¬ ((20000 : Nat) < 20000) from by norm_num)]
    rw [if_neg (show ¬ ((20000 : Nat) > 500000 ∧ 2 < 20) from fun h => absurd h.1 (by norm_num))]
    rw [if_pos (show (20000 : Nat) < 50000 from by norm_num)]
    rw [show min (3 : Nat) 2 = 2 from by omega]
    rw [if_neg (show ¬ ((2 : Nat) = 0) from by norm_num)]
    rw [show (20000 : Nat) / 2 = 10000 from by norm_num]
    rw [show (20000 : Nat) + 1 = 20001 from rfl]
    rw [c7_walk]
    dsimp only
    rw [c7_drop_19004, c7_strip_B]
    rw [if_pos (show (19004 : Nat) < 20000 ∧ c7B ≠ [] from ⟨by norm_num, c7B_ne_nil⟩)]
    rw [List.cons_append, List.cons_append, List.nil_append]
    rw [if_neg (List.cons_ne_nil _ _)]
    rw [c7_strip_input, c7input_length]
    rw [totalLen_three, c7A_length, c7B_length]
    rw [if_neg (show ¬ ((20000 : Nat) = 0 ∨ 20 * (9500 + 9500 + 996) < 19 * 20000) from
      by norm_num)]
    rw [if_neg (show ¬ (([((mkTitle c7A 1).1, c7A), ((mkTitle c7A 2).1, c7A),
      (toL "Part " ++ natToChars 3 ++ toL ": Final Section", c7B)] : List Chapter).length = 1)
      from by simp)]
  rw [show fuel + 1 = Nat.succ fuel from rfl, fallbackDetection.eq_2, hbody]

/-- C7 counterexample: on a 20000-character document whose paragraph breaks sit
exactly where the breakpoint search looks, `_fallback_chapter_detection` with
`max_chapters = 2` returns 3 chapters — the trailing-remainder append pushes
the result past the `max_chapters` cap, refuting "at most max_chapters
chapters". -/
theorem c7_counterexample :
    ¬ ((fallbackDetection pyRecursionLimit c7input 2).length ≤ 2) := by
  rw [show pyRecursionLimit = 999 + 1 from rfl, c7_fallback]
  simp

/-! ## Doc2Audiobook.create_audiobook (src/core/doc2audiobook.py 62-260) -/

/-- Python `f"{n:03d}"`: zero-pad to width 3. -/
def pad3 (n : Nat) : List Char :=
  if n < 10 then '0' :: '0' :: natToChars n
  else if n < 100 then '0' :: natToChars n
  else natToChars n

/-- `f"chapter_{i+1:03d}.mp3"` for the 0-based chapter index `i`. -/
def chapterFileName (i : Nat) : List Char :=
  toL "chapter_" ++ pad3 (i + 1) ++ toL ".mp3"

/-- The per-chapter loop (lines 99-162): empty or whitespace-only chapters are
skipped; `ok i ch` abstracts whether the TTS/processing/export try-block for
the i-th chapter succeeds (its exception is caught and the loop continues);
each success appends the chapter file and bumps `successful_chapters`.
State: (output_files, successful_chapters). -/
def chapterLoop (ok : Nat → Chapter → Bool) :
    List Chapter → Nat → List (List Char) × Nat → List (List Char) × Nat
  | [], _, st => st
  | ch :: rest, i, (outs, succ) =>
    if ch.2 = [] ∨ pyStrip ch.2 = [] then chapterLoop ok rest (i + 1) (outs, succ)
    else if ok i ch then
      chapterLoop ok rest (i + 1) (outs ++ [chapterFileName i], succ + 1)
    else chapterLoop ok rest (i + 1) (outs, succ)

/-- Status and output-file aggregation of `create_audiobook` (lines 157-247):
zero successes short-circuit to "failed" with an empty output list; otherwise
the combine step (whose failure is caught) may append the complete-audiobook
file, and the status is "completed" iff every detected chapter succeeded. -/
def createAudiobook (ok : Nat → Chapter → Bool) (combineOk : Bool)
    (chapters : List Chapter) : List Char × List (List Char) :=
  let w := chapterLoop ok chapters 0 ([], 0)
  if w.2 = 0 then (toL "failed", [])
  else
    ((if w.2 = chapters.length then toL "completed" else toL "partial"),
      if combineOk then w.1 ++ [toL "complete_audiobook.mp3"] else w.1)

/-- The C4 scenario: 5 chapters where the 3rd (index 2) synthesis always
raises. -/
def c4ok : Nat → Chapter → Bool := fun i _ => !(i = 2)

def c4chapters : List Chapter :=
  [(toL "One", toL "alpha"), (toL "Two", toL "bravo"), (toL "Three", toL "charlie"),
   (toL "Four", toL "delta"), (toL "Five", toL "echo")]

/-- C4: a chapter's synthesis failure is caught and the loop continues; the
status is "failed" exactly when zero chapters succeeded, "completed" exactly
when every detected chapter succeeded (successes equal the chapter count, the
list being non-empty), and "partial" otherwise; and in the 5-chapter scenario
with chapter 3 always raising, the result is status "partial" with
successful_chapters = 4 and exactly the other 4 chapter files, chapter 3
unreferenced. -/
theorem c4_theorem :
    (∀ (ok : Nat → Chapter → Bool) (combineOk : Bool) (chapters : List Chapter),
      ((createAudiobook ok combineOk chapters).1 = toL "failed"
          ↔ (chapterLoop ok chapters 0 ([], 0)).2 = 0)
      ∧ ((createAudiobook ok combineOk chapters).1 = toL "completed"
          ↔ chapters ≠ [] ∧ (chapterLoop ok chapters 0 ([], 0)).2 = chapters.length)
      ∧ ((createAudiobook ok combineOk chapters).1 = toL "partial"
          ↔ (chapterLoop ok chapters 0 ([], 0)).2 ≠ 0
            ∧ (chapterLoop ok chapters 0 ([], 0)).2 ≠ chapters.length))
    ∧ createAudiobook c4ok false c4chapters
        = (toL "partial", [toL "chapter_001.mp3", toL "chapter_002.mp3",
            toL "chapter_004.mp3", toL "chapter_005.mp3"])
    ∧ (chapterLoop c4ok c4chapters 0 ([], 0)).2 = 4
    ∧ toL "chapter_003.mp3" ∉ (createAudiobook c4ok false c4chapters).2 := by
  refine ⟨fun ok combineOk chapters => ?_, by decide, by decide, by decide⟩
  by_cases h0 : (chapterLoop ok chapters 0 ([], 0)).2 = 0
  · have hs : (createAudiobook ok combineOk chapters).1 = toL "failed" := by
      rw [createAudiobook]
      rw [if_pos h0]
    rw [hs]
    refine ⟨⟨fun _ => h0, fun _ => rfl⟩,
      ⟨fun h => absurd h (by decide), fun h => ?_⟩,
      ⟨fun h => absurd h (by decide), fun h => absurd h0 h.1⟩⟩
    exact absurd (List.length_eq_zero.1 (h.2 ▸ h0)) h.1
  · by_cases hL : (chapterLoop ok chapters 0 ([], 0)).2 = chapters.length
    · have hs : (createAudiobook ok combineOk chapters).1 = toL "completed" := by
        rw [createAudiobook]
        rw [if_neg h0]
        rw [if_pos hL]
      have hne : chapters ≠ [] := fun hnil =>
        h0 (by rw [hL, hnil, List.length_nil])
      rw [hs]
      exact ⟨⟨fun h => absurd h (by decide), fun h => absurd (h ▸ h0) (fun c => c rfl)⟩,
        ⟨fun _ => ⟨hne, hL⟩, fun _ => rfl⟩,
        ⟨fun h => absurd h (by decide), fun h => absurd hL h.2⟩⟩
    · have hs : (createAudiobook ok combineOk chapters).1 = toL "partial" := by
        rw [createAudiobook]
        rw [if_neg h0]
        rw [if_neg hL]
      rw [hs]
      exact ⟨⟨fun h => absurd h (by decide), fun h => absurd h h0⟩,
        ⟨fun h => absurd h (by decide), fun h => absurd h.2 hL⟩,
        ⟨fun _ => ⟨h0, hL⟩, fun _ => rfl⟩⟩

/-! ## TTSCache (src/core/tts/cache.py 70-211)

The cache key is `f"{md5(normalized_text)}_{md5(settings_json)}"`; md5 is
modelled as injective, so the key is represented by its preimage: the
normalized text paired with the relevant settings projection.  The sqlite
table is an ordered list of rows (insertion order = id order), the filesystem
an association list from paths to file sizes, and timestamps are Nats. -/

/-- The five settings fields that `_generate_hash` projects out of the
settings dict (lines 171-177). -/
structure TTSSettingsKey where
  voice : List Char
  model : List Char
  speed : List Char
  style : List Char
  emotion : List Char
deriving DecidableEq

abbrev HashKey := List Char × TTSSettingsKey

/-- One row of the `cache` table. -/
structure CacheRow where
  rid : Nat
  textHash : HashKey
  audioPath : List Char
  createdAt : Nat
  lastAccessed : Nat
  accessCount : Nat
  textLength : Nat
deriving DecidableEq

/-- `' '.join(text.split())` (line 166). -/
def normalizeText (t : List Char) : List Char :=
  List.intercalate [' '] (pySplitWs t)

/-- `_generate_hash` (lines 160-188), with md5 modelled as injective. -/
def generateHash (text : List Char) (settings : TTSSettingsKey) : HashKey :=
  (normalizeText text, settings)

/-- `os.path.exists` / `os.path.getsize` over the modelled filesystem. -/
def fsLookup : List (List Char × Nat) → List Char → Option Nat
  | [], _ => none
  | (q, n) :: rest, p => if p = q then some n else fsLookup rest p

/-- `SELECT ... WHERE text_hash = ?` + `fetchone()`: first matching row. -/
def dbFind : List CacheRow → HashKey → Option CacheRow
  | [], _ => none
  | r :: rest, h => if r.textHash = h then some r else dbFind rest h

/-- `DELETE FROM cache WHERE text_hash = ?`. -/
def dbDelete (db : List CacheRow) (h : HashKey) : List CacheRow :=
  db.filter (fun r => !(r.textHash = h))

/-- `UPDATE cache SET last_accessed = ?, access_count = ? WHERE text_hash = ?`. -/
def dbUpdateAccess (db : List CacheRow) (h : HashKey) (now cnt : Nat) : List CacheRow :=
  db.map (fun r => if r.textHash = h then
    { r with lastAccessed := now, accessCount := cnt } else r)

def natMem (n : Nat) : List Nat → Bool
  | [] => false
  | m :: rest => if n = m then true else natMem n rest

/-- Stable insertion into a list sorted by ascending `last_accessed`. -/
def insertRowByLA (r : CacheRow) : List CacheRow → List CacheRow
  | [] => [r]
  | x :: xs =>
    if r.lastAccessed ≤ x.lastAccessed then r :: x :: xs
    else x :: insertRowByLA r xs

/-- `ORDER BY last_accessed ASC` (stable, ties kept in id order). -/
def sortRowsByLA : List CacheRow → List CacheRow
  | [] => []
  | r :: rs => insertRowByLA r (sortRowsByLA rs)

/-- The next AUTOINCREMENT id. -/
def freshId (db : List CacheRow) : Nat :=
  (db.map (fun r => r.rid)).foldr max 0 + 1

/-- `_cleanup_cache` (lines 190-211): when over `max_size`, delete the
`count - max_size` entries with the oldest `last_accessed`. -/
def cleanupCache (maxSize : Nat) (db : List CacheRow) : List CacheRow :=
  if db.length > maxSize then
    let ids := ((sortRowsByLA db).take (db.length - maxSize)).map (fun r => r.rid)
    db.filter (fun r => !(natMem r.rid ids))
  else db

/-- `get_cached_audio` (lines 70-113).  Returns the reported path (None on
miss) and the database state after the call. -/
def getCachedAudio (now : Nat) (text : List Char) (settings : TTSSettingsKey)
    (db : List CacheRow) (fs : List (List Char × Nat)) :
    Option (List Char) × List CacheRow :=
  let h := generateHash text settings
  match dbFind db h with
  | none => (none, db)
  | some r =>
    match fsLookup fs r.audioPath with
    | none => (none, dbDelete db h)
    | some _ => (some r.audioPath, dbUpdateAccess db h now (r.accessCount + 1))

/-- `cache_audio` (lines 115-158): reject a missing or empty artifact file,
`INSERT OR REPLACE` the row (delete the conflicting row, append with a fresh
id), then run the cleanup. -/
def cacheAudio (now maxSize : Nat) (text : List Char) (settings : TTSSettingsKey)
    (audioPath : List Char) (db : List CacheRow) (fs : List (List Char × Nat)) :
    List CacheRow :=
  match fsLookup fs audioPath with
  | none => db
  | some sz =>
    if sz = 0 then db
    else
      let h := generateHash text settings
      cleanupCache maxSize
        (dbDelete db h ++ [⟨freshId db, h, audioPath, now, now, 1, text.length⟩])

/-- Every stored row's `last_accessed` is no later than `now`. -/
def dbAllOlder (db : List CacheRow) (now : Nat) : Prop :=
  ∀ r ∈ db, r.lastAccessed ≤ now

instance (db : List CacheRow) (now : Nat) : Decidable (dbAllOlder db now) :=
  List.decidableBAll _ db

theorem dbDelete_no_hash (db : List CacheRow) (h : HashKey) :
    ∀ r ∈ dbDelete db h, r.textHash ≠ h := by
  intro r hr
  have := (List.mem_filter.1 hr).2
  simpa using this

theorem dbFind_none_of {l : List CacheRow} {h : HashKey}
    (hl : ∀ r ∈ l, r.textHash ≠ h) : dbFind l h = none := by
  induction l with
  | nil => rfl
  | cons r rest ih =>
    rw [dbFind, if_neg (hl r (by simp))]
    exact ih (fun x hx => hl x (by simp [hx]))

theorem dbFind_delete (db : List CacheRow) (h : HashKey) :
    dbFind (dbDelete db h) h = none :=
  dbFind_none_of (dbDelete_no_hash db h)

theorem dbFind_append_nr {l : List CacheRow} {nr : CacheRow} {h : HashKey}
    (hl : ∀ r ∈ l, r.textHash ≠ h) (hnr : nr.textHash = h) :
    dbFind (l ++ [nr]) h = some nr := by
  induction l with
  | nil =>
    rw [List.nil_append, dbFind, if_pos hnr]
  | cons r rest ih =>
    rw [List.cons_append, dbFind, if_neg (hl r (by simp))]
    exact ih (fun x hx => hl x (by simp [hx]))

theorem dbFind_update (l : List CacheRow) (h : HashKey) (now cnt : Nat) :
    dbFind (dbUpdateAccess l h now cnt) h
      = Option.map (fun r => { r with lastAccessed := now, accessCount := cnt })
          (dbFind l h) := by
  induction l with
  | nil => rfl
  | cons r rest ih =>
    by_cases hr : r.textHash = h
    · rw [dbUpdateAccess, List.map_cons, if_pos hr, dbFind, if_pos hr, dbFind, if_pos hr]
      rfl
    · rw [dbUpdateAccess, List.map_cons, if_neg hr, dbFind, if_neg hr, dbFind, if_neg hr]
      exact ih

theorem natMem_iff {n : Nat} {l : List Nat} : natMem n l = true ↔ n ∈ l := by
  induction l with
  | nil => simp [natMem]
  | cons m rest ih =>
    by_cases hm : n = m
    · simp [natMem, hm]
    · rw [natMem, if_neg hm]
      simp [ih, hm]

theorem insertRow_length (r : CacheRow) (l : List CacheRow) :
    (insertRowByLA r l).length = l.length + 1 := by
  induction l with
  | nil => rfl
  | cons x xs ih =>
    rw [insertRowByLA]
    split
    · simp
    · simp [ih]

theorem sortRows_length (l : List CacheRow) :
    (sortRowsByLA l).length = l.length := by
  induction l with
  | nil => rfl
  | cons r rs ih => rw [sortRowsByLA, insertRow_length, ih, List.length_cons]

theorem mem_insertRow {x r : CacheRow} {l : List CacheRow}
    (hx : x ∈ insertRowByLA r l) : x = r ∨ x ∈ l := by
  induction l with
  | nil => simp [insertRowByLA] at hx; exact Or.inl hx
  | cons y ys ih =>
    rw [insertRowByLA] at hx
    split at hx
    · simpa using hx
    · rcases List.mem_cons.1 hx with hy | ht
      · exact Or.inr (by simp [hy])
      · rcases ih ht with he | hm
        · exact Or.inl he
        · exact Or.inr (by simp [hm])

theorem mem_sortRows {x : CacheRow} {l : List CacheRow}
    (hx : x ∈ sortRowsByLA l) : x ∈ l := by
  induction l with
  | nil => simp [sortRowsByLA] at hx
  | cons r rs ih =>
    rw [sortRowsByLA] at hx
    rcases mem_insertRow hx with he | hm
    · simp [he]
    · simp [ih hm]

theorem insertRow_append_last (r nr : CacheRow) (l : List CacheRow)
    (hle : r.lastAccessed ≤ nr.lastAccessed) :
    insertRowByLA r (l ++ [nr]) = insertRowByLA r l ++ [nr] := by
  induction l with
  | nil =>
    rw [List.nil_append]
    simp only [insertRowByLA]
    rw [if_pos hle]
    rfl
  | cons x xs ih =>
    rw [List.cons_append, insertRowByLA, insertRowByLA]
    split
    · rfl
    · rw [ih, List.cons_append]

theorem sortRows_append_last (l : List CacheRow) (nr : CacheRow)
    (hl : ∀ r ∈ l, r.lastAccessed ≤ nr.lastAccessed) :
    sortRowsByLA (l ++ [nr]) = sortRowsByLA l ++ [nr] := by
  induction l with
  | nil => rfl
  | cons r rs ih =>
    rw [List.cons_append, sortRowsByLA, ih (fun x hx => hl x (by simp [hx])),
      insertRow_append_last r nr _ (hl r (by simp)), sortRowsByLA]

theorem rid_le_foldr_max {r : CacheRow} {db : List CacheRow} (h : r ∈ db) :
    r.rid ≤ (db.map (fun x => x.rid)).foldr max 0 := by
  induction db with
  | nil => simp at h
  | cons x xs ih =>
    rw [List.map_cons, List.foldr_cons]
    rcases List.mem_cons.1 h with he | hm
    · rw [he]
      exact le_max_left _ _
    · exact le_trans (ih hm) (le_max_right _ _)

theorem rid_lt_freshId {r : CacheRow} {db : List CacheRow} (h : r ∈ db) :
    r.rid < freshId db :=
  Nat.lt_succ_of_le (rid_le_foldr_max h)

/-- A strictly-newest appended row survives the cleanup: the deleted rows are
drawn from the older part of the list. -/
theorem cleanup_keep (maxSize : Nat) (l : List CacheRow) (nr : CacheRow)
    (hmax : 1 ≤ maxSize)
    (hla : ∀ r ∈ l, r.lastAccessed ≤ nr.lastAccessed)
    (hid : ∀ r ∈ l, r.rid ≠ nr.rid) :
    ∃ l', cleanupCache maxSize (l ++ [nr]) = l' ++ [nr] ∧ ∀ r ∈ l', r ∈ l := by
  rw [cleanupCache]
  split
  · refine ⟨l.filter (fun r => !(natMem r.rid
      (((sortRowsByLA (l ++ [nr])).take ((l ++ [nr]).length - maxSize)).map
        (fun r => r.rid)))), ?_, fun r hr => List.mem_of_mem_filter hr⟩
    rw [List.filter_append]
    have htake : (sortRowsByLA (l ++ [nr])).take ((l ++ [nr]).length - maxSize)
        = (sortRowsByLA l).take ((l ++ [nr]).length - maxSize) := by
      rw [sortRows_append_last l nr hla]
      apply List.take_append_of_le_length
      rw [sortRows_length]
      simp only [List.length_append, List.length_cons, List.length_nil]
      omega
    have hnrkeep : ∀ m ∈ ((sortRowsByLA (l ++ [nr])).take
        ((l ++ [nr]).length - maxSize)).map (fun r => r.rid), m ≠ nr.rid := by
      intro m hm
      rw [htake] at hm
      obtain ⟨x, hx, hxm⟩ := List.mem_map.1 hm
      have hxl : x ∈ l := mem_sortRows (List.mem_of_mem_take hx)
      rw [← hxm]
      exact hid x hxl
    have : List.filter (fun r => !(natMem r.rid
        (((sortRowsByLA (l ++ [nr])).take ((l ++ [nr]).length - maxSize)).map
          (fun r => r.rid)))) [nr] = [nr] := by
      rw [List.filter_cons]
      have hmem : natMem nr.rid (((sortRowsByLA (l ++ [nr])).take
          ((l ++ [nr]).length - maxSize)).map (fun r => r.rid)) = false := by
        rw [Bool.eq_false_iff]
        intro hb
        exact hnrkeep nr.rid (natMem_iff.1 hb) rfl
      rw [hmem]
      rfl
    rw [this]
  · exact ⟨l, rfl, fun r hr => hr⟩

/-- C6: storing audio for a (text, settings) pair whose artifact file exists
and is non-empty, then looking up the same pair, returns the stored path;
after the artifact file disappears from disk, the next lookup reports a miss
and deletes the stale row.  `now`-monotone timestamps and a positive
`max_size` keep the fresh row out of the cleanup's reach. -/
theorem c6_theorem
    (now maxSize now2 now3 : Nat) (text : List Char) (settings : TTSSettingsKey)
    (path : List Char) (db : List CacheRow) (fs fs2 : List (List Char × Nat)) (sz : Nat)
    (hmax : 1 ≤ maxSize)
    (hfile : fsLookup fs path = some sz) (hsz : ¬ sz = 0)
    (hla : dbAllOlder db now)
    (hgone : fsLookup fs2 path = none) :
    (getCachedAudio now2 text settings
        (cacheAudio now maxSize text settings path db fs) fs).1 = some path
    ∧ (getCachedAudio now3 text settings
        (getCachedAudio now2 text settings
          (cacheAudio now maxSize text settings path db fs) fs).2 fs2).1 = none
    ∧ dbFind (getCachedAudio now3 text settings
        (getCachedAudio now2 text settings
          (cacheAudio now maxSize text settings path db fs) fs).2 fs2).2
        (generateHash text settings) = none := by
  have hdb2 : cacheAudio now maxSize text settings path db fs
      = cleanupCache maxSize (dbDelete db (generateHash text settings)
          ++ [⟨freshId db, generateHash text settings, path, now, now, 1,
               text.length⟩]) := by
    rw [cacheAudio, hfile]
    dsimp only
    rw [if_neg hsz]
  obtain ⟨l', hcl, hsub⟩ := cleanup_keep maxSize (dbDelete db (generateHash text settings))
    ⟨freshId db, generateHash text settings, path, now, now, 1, text.length⟩ hmax
    (fun r hr => hla r (List.mem_of_mem_filter hr))
    (fun r hr => Nat.ne_of_lt (rid_lt_freshId (List.mem_of_mem_filter hr)))
  have hfind2 : dbFind (cacheAudio now maxSize text settings path db fs)
      (generateHash text settings)
      = some ⟨freshId db, generateHash text settings, path, now, now, 1,
          text.length⟩ := by
    rw [hdb2, hcl]
    exact dbFind_append_nr
      (fun r hr => dbDelete_no_hash db (generateHash text settings) r (hsub r hr)) rfl
  have hup : getCachedAudio now2 text settings
      (cacheAudio now maxSize text settings path db fs) fs
      = (some path, dbUpdateAccess (cacheAudio now maxSize text settings path db fs)
          (generateHash text settings) now2 (1 + 1)) := by
    rw [getCachedAudio, hfind2]
    dsimp only
    rw [hfile]
  have hfind3 : dbFind (dbUpdateAccess (cacheAudio now maxSize text settings path db fs)
      (generateHash text settings) now2 (1 + 1)) (generateHash text settings)
      = some ⟨freshId db, generateHash text settings, path, now, now2, 1 + 1,
          text.length⟩ := by
    rw [dbFind_update, hfind2]
    rfl
  have h2 : getCachedAudio now3 text settings
      (dbUpdateAccess (cacheAudio now maxSize text settings path db fs)
        (generateHash text settings) now2 (1 + 1)) fs2
      = (none, dbDelete (dbUpdateAccess (cacheAudio now maxSize text settings path db fs)
          (generateHash text settings) now2 (1 + 1)) (generateHash text settings)) := by
    rw [getCachedAudio, hfind3]
    dsimp only
    rw [hgone]
  refine ⟨by rw [hup], ?_, ?_⟩
  · rw [hup]
    dsimp only
    rw [h2]
  · rw [hup]
    dsimp only
    rw [h2]
    dsimp only
    rw [dbFind_delete]

def c6settings : TTSSettingsKey :=
  ⟨toL "alloy", toL "tts-1", toL "1.0", toL "neutral", toL ""⟩

/-- Witness for C6 at a concrete store/lookup/delete/lookup sequence. -/
theorem c6_witness :
    ((1 : Nat) ≤ 1
      ∧ fsLookup [(toL "a.mp3", 3)] (toL "a.mp3") = some 3
      ∧ ¬ ((3 : Nat) = 0)
      ∧ dbAllOlder [] 5
      ∧ fsLookup [] (toL "a.mp3") = none)
    ∧ ((getCachedAudio 6 (toL "hi") c6settings
          (cacheAudio 5 1 (toL "hi") c6settings (toL "a.mp3") [] [(toL "a.mp3", 3)])
          [(toL "a.mp3", 3)]).1 = some (toL "a.mp3")
      ∧ (getCachedAudio 7 (toL "hi") c6settings
          (getCachedAudio 6 (toL "hi") c6settings
            (cacheAudio 5 1 (toL "hi") c6settings (toL "a.mp3") [] [(toL "a.mp3", 3)])
            [(toL "a.mp3", 3)]).2 []).1 = none
      ∧ dbFind (getCachedAudio 7 (toL "hi") c6settings
          (getCachedAudio 6 (toL "hi") c6settings
            (cacheAudio 5 1 (toL "hi") c6settings (toL "a.mp3") [] [(toL "a.mp3", 3)])
            [(toL "a.mp3", 3)]).2 []).2
          (generateHash (toL "hi") c6settings) = none) :=
  ⟨⟨by decide, by decide, by decide, by decide, by decide⟩,
   c6_theorem 5 1 6 7 (toL "hi") c6settings (toL "a.mp3") [] [(toL "a.mp3", 3)] [] 3
     (by decide) (by decide) (by decide) (by decide) (by decide)⟩

/-- Witness for C10: the short-text fallback at a sub-100-character input, and
the low-coverage fallback at `c5input` (trimmed length 167, explicit chapters
covering only 4 characters). -/
theorem c10_witness :
    (detectChapters (fun _ _ => []) (toL "short text") 30 ≠ []
      ∧ (pyStrip (toL "short text")).length < 100
      ∧ detectChapters (fun _ _ => []) (toL "short text") 30
          = [(completeDocumentT, toL "short text")])
    ∧ (100 ≤ (pyStrip c5input).length
      ∧ 10 * totalLen (strategyChapters (fun _ _ => []) c5input 30)
          < 9 * (pyStrip c5input).length
      ∧ detectChapters (fun _ _ => []) c5input 30 = [(completeDocumentT, c5input)]) :=
  ⟨⟨(c10_theorem (fun _ _ => []) (toL "short text") 30).1, by decide,
    (c10_theorem (fun _ _ => []) (toL "short text") 30).2.1 (by decide)⟩,
   ⟨by decide, by decide,
    (c10_theorem (fun _ _ => []) c5input 30).2.2 (by decide) (by decide)⟩⟩
